import Mathlib

set_option maxHeartbeats 1000000
set_option maxRecDepth 4000

/-!
Verification of the slack-export-extension export pipeline.

The JavaScript sources (src/config.js, src/utils.js, src/popup.js) are
shallow-embedded below: strings are `List Char` / `String`, wall-clock
reads (`Date.now()`, `new Date()`) become explicit parameters, network and
storage I/O become explicit oracle parameters, and the regular-expression
operations of the source are implemented as executable scanners with the
same backtracking semantics as the JavaScript regexes they translate.
-/

namespace SlackExport

/-- The backtick character (code point 96). -/
def bq : Char := Char.ofNat 96

/-- The three-backtick fence marker used by the source's fence regexes. -/
def backtick3 : List Char := [bq, bq, bq]

/-- The three-tilde fence marker used by the source's fence regexes. -/
def tilde3 : List Char := ['~', '~', '~']

/-- JavaScript's `\s` character class (whitespace as used by `trim`,
`\s+`, `\s*`). -/
def isJsWs (c : Char) : Bool :=
  c = ' ' || c = '\t' || c = '\n' || c = Char.ofNat 11 || c = Char.ofNat 12 ||
  c = '\r' || c = Char.ofNat 160 || c = Char.ofNat 5760 ||
  (8192 ≤ c.toNat && c.toNat ≤ 8202) || c = Char.ofNat 8232 ||
  c = Char.ofNat 8233 || c = Char.ofNat 8239 || c = Char.ofNat 8287 ||
  c = Char.ofNat 12288 || c = Char.ofNat 65279

/-- JS `String.prototype.trimStart` on char lists. -/
def jsTrimStart (l : List Char) : List Char := l.dropWhile isJsWs

/-- JS `String.prototype.trimEnd` on char lists. -/
def jsTrimEnd (l : List Char) : List Char := (l.reverse.dropWhile isJsWs).reverse

/-- JS `String.prototype.trim` on char lists. -/
def jsTrim (l : List Char) : List Char := jsTrimEnd (jsTrimStart l)

/-- Split a list at the first occurrence of pattern `m`: returns the part
before the occurrence and the part after it.  `none` when `m` does not
occur (for nonempty inputs the empty pattern matches at position 0). -/
def splitAtFirstOcc (m : List Char) : List Char → Option (List Char × List Char)
  | [] => none
  | c :: rest =>
    if List.isPrefixOf m (c :: rest) then some ([], List.drop m.length (c :: rest))
    else
      match splitAtFirstOcc m rest with
      | some (pre, post) => some (c :: pre, post)
      | none => none

/-- Fuel-indexed worker for the global replacement (structural recursion
on the fuel so that closed instances evaluate in the kernel; any fuel at
least the input length computes the replacement). -/
def replaceAllFuel (u r : List Char) : Nat → List Char → List Char
  | _, [] => if u = [] then r else []
  | 0, l => l
  | fuel + 1, c :: cs =>
    if u ≠ [] ∧ List.isPrefixOf u (c :: cs) then
      r ++ replaceAllFuel u r fuel (List.drop u.length (c :: cs))
    else if u = [] then
      r ++ c :: replaceAllFuel u r fuel cs
    else
      c :: replaceAllFuel u r fuel cs

/-- JS `str.replace(new RegExp(escapeRegex(u), 'g'), r)`: literal,
left-to-right, non-overlapping global replacement, including the empty-
pattern behaviour of JS regexes. -/
def replaceAllAux (u r l : List Char) : List Char :=
  replaceAllFuel u r l.length l

theorem replaceAllFuel_congr (u r : List Char) :
    ∀ fuel₁ fuel₂ l, l.length ≤ fuel₁ → l.length ≤ fuel₂ →
      replaceAllFuel u r fuel₁ l = replaceAllFuel u r fuel₂ l := by
  intro fuel₁
  induction fuel₁ with
  | zero =>
    intro fuel₂ l h1 h2
    have : l = [] := List.length_eq_zero.mp (Nat.le_zero.mp h1)
    subst this
    cases fuel₂ <;> rfl
  | succ f ih =>
    intro fuel₂ l h1 h2
    cases l with
    | nil => cases fuel₂ <;> rfl
    | cons c cs =>
      cases fuel₂ with
      | zero => simp at h2
      | succ f2 =>
        rw [replaceAllFuel, replaceAllFuel]
        by_cases hm : u ≠ [] ∧ List.isPrefixOf u (c :: cs)
        · rw [if_pos hm, if_pos hm]
          have hlen : (List.drop u.length (c :: cs)).length ≤ f ∧
              (List.drop u.length (c :: cs)).length ≤ f2 := by
            have : 1 ≤ u.length := by
              cases u with
              | nil => exact absurd rfl hm.1
              | cons a t => simp
            simp only [List.length_drop, List.length_cons]
            simp only [List.length_cons] at h1 h2
            omega
          rw [ih f2 _ hlen.1 hlen.2]
        · rw [if_neg hm, if_neg hm]
          have hlen : cs.length ≤ f ∧ cs.length ≤ f2 := by
            simp only [List.length_cons] at h1 h2
            omega
          by_cases he : u = []
          · rw [if_pos he, if_pos he, ih f2 _ hlen.1 hlen.2]
          · rw [if_neg he, if_neg he, ih f2 _ hlen.1 hlen.2]

/-- String wrapper for `replaceAllAux`. -/
def jsReplaceAll (u r s : String) : String := ⟨replaceAllAux u.data r.data s.data⟩

/-- JS `str.replace(pattern, r)` with a *string* pattern: replaces only the
first occurrence (identity when the pattern does not occur). -/
def replaceFirstAux (u r l : List Char) : List Char :=
  if u = [] then r ++ l
  else
    match splitAtFirstOcc u l with
    | some (pre, post) => pre ++ r ++ post
    | none => l

/-- String wrapper for `replaceFirstAux`. -/
def jsReplaceFirst (u r s : String) : String := ⟨replaceFirstAux u.data r.data s.data⟩

/- ── Generic list lemmas about prefixes / infixes ─────────────────── -/

theorem prefixAppendSplit {u a b : List Char} (h : u <+: a ++ b) :
    u <+: a ∨ ∃ rest, u = a ++ rest ∧ rest <+: b := by
  induction a generalizing u with
  | nil => exact Or.inr ⟨u, rfl, h⟩
  | cons c a' ih =>
    cases u with
    | nil => exact Or.inl List.nil_prefix
    | cons d u' =>
      rw [List.cons_append, List.cons_prefix_cons] at h
      obtain ⟨rfl, h'⟩ := h
      rcases ih h' with h2 | ⟨rest, rfl, hr⟩
      · exact Or.inl (List.cons_prefix_cons.mpr ⟨rfl, h2⟩)
      · exact Or.inr ⟨rest, rfl, hr⟩

theorem infixConsSplit {u : List Char} {c : Char} {t : List Char}
    (h : u <:+: c :: t) : u <+: c :: t ∨ u <:+: t := by
  obtain ⟨s, v, hsv⟩ := h
  cases s with
  | nil => exact Or.inl ⟨v, by simpa using hsv⟩
  | cons d s' =>
    rw [List.cons_append, List.cons_append] at hsv
    injection hsv with h1 h2
    exact Or.inr ⟨s', v, h2⟩

theorem infixAppendSplit {u a b : List Char} (h : u <:+: a ++ b) :
    u <:+: a ∨ u <:+: b ∨
      ∃ u₁ u₂, u = u₁ ++ u₂ ∧ u₁ ≠ [] ∧ u₂ ≠ [] ∧ u₁ <:+ a ∧ u₂ <+: b := by
  induction a generalizing u with
  | nil => exact Or.inr (Or.inl (by simpa using h))
  | cons c a' ih =>
    rw [List.cons_append] at h
    rcases infixConsSplit h with hp | hi
    · rw [show c :: (a' ++ b) = (c :: a') ++ b from rfl] at hp
      rcases prefixAppendSplit hp with h2 | ⟨rest, rfl, hr⟩
      · exact Or.inl h2.isInfix
      · cases rest with
        | nil => exact Or.inl (by simp)
        | cons e rest' =>
          exact Or.inr (Or.inr ⟨c :: a', e :: rest', rfl, by simp, by simp,
            List.suffix_rfl, hr⟩)
    · rcases ih hi with h2 | h2 | ⟨u₁, u₂, rfl, hne1, hne2, hs, hp2⟩
      · exact Or.inl (List.infix_cons h2)
      · exact Or.inr (Or.inl h2)
      · exact Or.inr (Or.inr ⟨u₁, u₂, rfl, hne1, hne2,
          hs.trans (List.suffix_cons c a'), hp2⟩)

theorem replaceAllFuel_nil (u r : List Char) (fuel : Nat) :
    replaceAllFuel u r fuel [] = if u = [] then r else [] := by
  cases fuel <;> rfl

theorem replaceAllAux_nil {u : List Char} (r : List Char) (hu : u ≠ []) :
    replaceAllAux u r [] = [] := by
  rw [replaceAllAux, replaceAllFuel_nil, if_neg hu]

theorem replaceAllAux_cons_match {u : List Char} (r : List Char) (hu : u ≠ [])
    {c : Char} {cs : List Char} (h : List.isPrefixOf u (c :: cs)) :
    replaceAllAux u r (c :: cs) =
      r ++ replaceAllAux u r (List.drop u.length (c :: cs)) := by
  show replaceAllFuel u r (cs.length + 1) (c :: cs) = _
  rw [replaceAllFuel, if_pos (And.intro hu h), replaceAllAux]
  congr 1
  refine replaceAllFuel_congr u r cs.length _ _ ?_ le_rfl
  have h1 : 1 ≤ u.length := by
    cases u with
    | nil => exact absurd rfl hu
    | cons a t => simp
  simp only [List.length_drop, List.length_cons]
  omega

theorem replaceAllAux_cons_nomatch {u : List Char} (r : List Char) (hu : u ≠ [])
    {c : Char} {cs : List Char} (h : ¬ List.isPrefixOf u (c :: cs)) :
    replaceAllAux u r (c :: cs) = c :: replaceAllAux u r cs := by
  show replaceAllFuel u r (cs.length + 1) (c :: cs) = c :: replaceAllFuel u r cs.length cs
  rw [replaceAllFuel, if_neg (fun hh => h hh.2), if_neg hu]

/-- Any prefix of the output of the global replacement either contains a
character of the replacement `r`, or is a prefix of the input itself. -/
theorem prefixOfReplace {u r : List Char} (hu : u ≠ []) (hr : r ≠ []) :
    ∀ n s w, s.length ≤ n → w <+: replaceAllAux u r s →
      (∃ c ∈ w, c ∈ r) ∨ w <+: s := by
  intro n
  induction n with
  | zero =>
    intro s w hlen h
    have hs : s = [] := List.length_eq_zero.mp (Nat.le_zero.mp hlen)
    subst hs
    rw [replaceAllAux_nil r hu] at h
    exact Or.inr h
  | succ n ih =>
    intro s w hlen h
    cases s with
    | nil =>
      rw [replaceAllAux_nil r hu] at h
      exact Or.inr h
    | cons c cs =>
      by_cases hm : List.isPrefixOf u (c :: cs)
      · rw [replaceAllAux_cons_match r hu hm] at h
        rcases prefixAppendSplit h with h1 | ⟨rest, rfl, hrest⟩
        · cases w with
          | nil => exact Or.inr List.nil_prefix
          | cons d w' =>
            obtain ⟨t, ht⟩ := h1
            refine Or.inl ⟨d, List.mem_cons_self d w', ?_⟩
            rw [← ht]
            simp
        · cases r with
          | nil => exact absurd rfl hr
          | cons rc r' => exact Or.inl ⟨rc, by simp, by simp⟩
      · rw [replaceAllAux_cons_nomatch r hu hm] at h
        cases w with
        | nil => exact Or.inr List.nil_prefix
        | cons d w' =>
          rw [List.cons_prefix_cons] at h
          obtain ⟨rfl, h2⟩ := h
          have hlen' : cs.length ≤ n := by
            simp only [List.length_cons] at hlen
            omega
          rcases ih cs w' hlen' h2 with ⟨ch, hch, hchr⟩ | hp
          · exact Or.inl ⟨ch, List.mem_cons_of_mem _ hch, hchr⟩
          · exact Or.inr (List.cons_prefix_cons.mpr ⟨rfl, hp⟩)

/-- After globally replacing a nonempty pattern `u` by a nonempty
replacement `r` none of whose characters occurs in `u`, the pattern no
longer occurs anywhere in the result. -/
theorem noOccAfterReplaceFuel {u r : List Char} (hu : u ≠ []) (hr : r ≠ [])
    (hdisj : ∀ c ∈ r, c ∉ u) :
    ∀ n s, s.length ≤ n → ¬ u <:+: replaceAllAux u r s := by
  intro n
  induction n with
  | zero =>
    intro s hlen h
    have hs : s = [] := List.length_eq_zero.mp (Nat.le_zero.mp hlen)
    subst hs
    rw [replaceAllAux_nil r hu] at h
    exact hu (List.infix_nil.mp h)
  | succ n ih =>
    intro s hlen h
    cases s with
    | nil =>
      rw [replaceAllAux_nil r hu] at h
      exact hu (List.infix_nil.mp h)
    | cons c cs =>
      by_cases hm : List.isPrefixOf u (c :: cs)
      · rw [replaceAllAux_cons_match r hu hm] at h
        have hdroplen : (List.drop u.length (c :: cs)).length ≤ n := by
          have h1 : 1 ≤ u.length := by
            cases u with
            | nil => exact absurd rfl hu
            | cons a l => simp
          simp only [List.length_drop, List.length_cons]
          simp only [List.length_cons] at hlen
          omega
        rcases infixAppendSplit h with h1 | h1 | ⟨u₁, u₂, hequ, hne1, hne2, hs1, hp1⟩
        · obtain ⟨s1, t1, ht1⟩ := h1
          cases u with
          | nil => exact absurd rfl hu
          | cons uc u' =>
            have huc : uc ∈ r := by
              rw [← ht1]
              simp
            exact hdisj uc huc (List.mem_cons_self uc u')
        · exact ih _ hdroplen h1
        · obtain ⟨s1, ht1⟩ := hs1
          cases u₁ with
          | nil => exact absurd rfl hne1
          | cons uc u₁' =>
            have huc : uc ∈ r := by
              rw [← ht1]
              simp
            refine hdisj uc huc ?_
            rw [hequ]
            simp
      · rw [replaceAllAux_cons_nomatch r hu hm] at h
        rcases infixConsSplit h with hp | hi
        · cases u with
          | nil => exact absurd rfl hu
          | cons uc u' =>
            rw [List.cons_prefix_cons] at hp
            obtain ⟨rfl, h2⟩ := hp
            rcases prefixOfReplace hu hr cs.length cs u' le_rfl h2 with
              ⟨ch, hch, hchr⟩ | hp2
            · exact hdisj ch hchr (List.mem_cons_of_mem _ hch)
            · exact hm (List.isPrefixOf_iff_prefix.mpr
                (List.cons_prefix_cons.mpr ⟨rfl, hp2⟩))
        · have hlen' : cs.length ≤ n := by
            simp only [List.length_cons] at hlen
            omega
          exact ih cs hlen' hi

/-- Fuel-free statement of `noOccAfterReplaceFuel`. -/
theorem noOccAfterReplace {u r : List Char} (hu : u ≠ []) (hr : r ≠ [])
    (hdisj : ∀ c ∈ r, c ∉ u) (s : List Char) :
    ¬ u <:+: replaceAllAux u r s :=
  noOccAfterReplaceFuel hu hr hdisj s.length s le_rfl

/- ── normalizeFenceBoundaries (src/config.js lines 890-991) ───────── -/

/-- JS `String(x).replace(/\r\n/g, '\n')` on char lists. -/
def replaceCRLF : List Char → List Char
  | [] => []
  | [c] => [c]
  | c :: d :: rest =>
    if c = '\r' ∧ d = '\n' then '\n' :: replaceCRLF rest
    else c :: replaceCRLF (d :: rest)

/-- JS `str.split('\n')` on char lists (always returns at least one part). -/
def splitLines : List Char → List (List Char)
  | [] => [[]]
  | c :: rest =>
    if c = '\n' then [] :: splitLines rest
    else
      match splitLines rest with
      | [] => [[c]]
      | h :: t => (c :: h) :: t

/-- JS `parts.join('\n')` on char lists. -/
def joinLines : List (List Char) → List Char
  | [] => []
  | [l] => l
  | l :: rest => l ++ '\n' :: joinLines rest

/-- `[A-Za-z0-9_-]`, the fence info-string character class of the source. -/
def isWordChar (c : Char) : Bool :=
  ('A' ≤ c && c ≤ 'Z') || ('a' ≤ c && c ≤ 'z') || ('0' ≤ c && c ≤ '9') ||
  c = '_' || c = '-'

/-- Whether the rest of a fence line after the marker matches
`\s*[A-Za-z0-9_-]*\s*$`. -/
def fenceRestOk (r : List Char) : Bool :=
  ((r.dropWhile isJsWs).dropWhile isWordChar).all isJsWs

/-- The regex `/^(```|~~~)\s*[A-Za-z0-9_-]*\s*$/` applied to a (trimmed)
line; returns the captured marker. -/
def matchOpenFence (t : List Char) : Option (List Char) :=
  if List.isPrefixOf backtick3 t then
    if fenceRestOk (List.drop 3 t) then some backtick3 else none
  else if List.isPrefixOf tilde3 t then
    if fenceRestOk (List.drop 3 t) then some tilde3 else none
  else none

/-- Whether `l` has the form `b ++ "):"` with `b` nonempty and free of
`')'` — the tail of the message-header regex after `"** ("`. -/
def hdrTail (l : List Char) : Bool :=
  let b := l.takeWhile (fun c => c ≠ ')')
  decide (b ≠ []) && decide (List.drop b.length l = [')', ':'])

/-- Search for `"** ("` at any position (with a valid header tail after
it). -/
def hdrScanPos : List Char → Bool
  | [] => false
  | c :: rest =>
    (List.isPrefixOf ['*', '*', ' ', '('] (c :: rest) &&
      hdrTail (List.drop 4 (c :: rest))) || hdrScanPos rest

/-- The regex `/^\*\*.+\*\* \([^)]+\):$/` (messageHeaderPattern) applied
to a trimmed line. -/
def matchMsgHeader (t : List Char) : Bool :=
  match t with
  | '*' :: '*' :: _ :: rest => hdrScanPos rest
  | _ => false

/-- Find, for an opening marker already consumed, the lazy
`(.+?)marker` closing split: code part (nonempty, minimal) and the
remainder after the closing marker. -/
def findFenceClose (m : List Char) : List Char → Option (List Char × List Char)
  | [] => none
  | c :: rest => (splitAtFirstOcc m rest).map (fun p => (c :: p.1, p.2))

/-- The regex `/^(.*?)(```|~~~)(.+?)\2(.*)$/` (inline full fence) with
JS backtracking semantics: returns (prefix, marker, code, suffix). -/
def scanInlineFull : List Char → Option (List Char × List Char × List Char × List Char)
  | [] => none
  | c :: rest =>
    if List.isPrefixOf backtick3 (c :: rest) then
      match findFenceClose backtick3 (List.drop 3 (c :: rest)) with
      | some (code, suf) => some ([], backtick3, code, suf)
      | none =>
        (scanInlineFull rest).map (fun p => (c :: p.1, p.2.1, p.2.2.1, p.2.2.2))
    else if List.isPrefixOf tilde3 (c :: rest) then
      match findFenceClose tilde3 (List.drop 3 (c :: rest)) with
      | some (code, suf) => some ([], tilde3, code, suf)
      | none =>
        (scanInlineFull rest).map (fun p => (c :: p.1, p.2.1, p.2.2.1, p.2.2.2))
    else (scanInlineFull rest).map (fun p => (c :: p.1, p.2.1, p.2.2.1, p.2.2.2))

/-- The regex `/^(.*?)(```|~~~)\s*$/` (trailing open fence) with JS
backtracking semantics: returns (prefix, marker). -/
def scanTrailingOpen : List Char → Option (List Char × List Char)
  | [] => none
  | c :: rest =>
    if List.isPrefixOf backtick3 (c :: rest) && (List.drop 3 (c :: rest)).all isJsWs then
      some ([], backtick3)
    else if List.isPrefixOf tilde3 (c :: rest) && (List.drop 3 (c :: rest)).all isJsWs then
      some ([], tilde3)
    else (scanTrailingOpen rest).map (fun p => (c :: p.1, p.2))

/-- One iteration of the `for (const rawLine of lines)` loop of
`normalizeFenceBoundaries`.  The fence state is `none` (outside a code
block) or `some marker` (inside one) — in the source `inCodeBlock` and
`codeFenceMarker` are always set and cleared together.  Returns the
lines pushed to `out` and the next state. -/
def normLine (st : Option (List Char)) (line : List Char) :
    List (List Char) × Option (List Char) :=
  let trimmed := jsTrim line
  match st with
  | none =>
    match matchOpenFence trimmed with
    | some m => ([trimmed], some m)
    | none =>
      match scanInlineFull line with
      | some (pre, m, code, suf) =>
        ((if jsTrim pre ≠ [] then [jsTrimEnd pre] else []) ++ [m, code, m] ++
          (if jsTrim suf ≠ [] then [jsTrimStart suf] else []), none)
      | none =>
        match scanTrailingOpen line with
        | some (pre, m) =>
          ((if jsTrim pre ≠ [] then [jsTrimEnd pre] else []) ++ [m], some m)
        | none => ([line], none)
  | some m =>
    if matchMsgHeader trimmed then
      ([m, line], none)
    else
      match splitAtFirstOcc m line with
      | some (codePart, rest) =>
        ((if codePart ≠ [] then [codePart] else []) ++ [m] ++
          (if jsTrim rest ≠ [] then [jsTrim rest] else []), none)
      | none =>
        if List.isPrefixOf m trimmed then
          ([m] ++
            (if jsTrim (List.drop m.length trimmed) ≠ [] then
              [jsTrim (List.drop m.length trimmed)] else []), none)
        else ([line], some m)

/-- The whole line loop plus the final `closeFenceIfOpen()`. -/
def normLinesGo (st : Option (List Char)) : List (List Char) → List (List Char)
  | [] =>
    match st with
    | some m => [m]
    | none => []
  | l :: rest =>
    let step := normLine st l
    step.1 ++ normLinesGo step.2 rest

/-- `normalizeFenceBoundaries` (src/config.js 890-991) on char lists. -/
def normalizeFenceBoundariesL (l : List Char) : List Char :=
  joinLines (normLinesGo none (splitLines (replaceCRLF l)))

/-- `normalizeFenceBoundaries` on strings. -/
def normalizeFenceBoundaries (s : String) : String :=
  ⟨normalizeFenceBoundariesL s.data⟩

/- ── `normalizeFenceBoundaries` is the identity on fence-free text ── -/

/-- Text containing neither fence marker. -/
def markerFree (l : List Char) : Prop :=
  ¬ backtick3 <:+: l ∧ ¬ tilde3 <:+: l

instance markerFreeDecidable (l : List Char) : Decidable (markerFree l) :=
  inferInstanceAs (Decidable (¬ backtick3 <:+: l ∧ ¬ tilde3 <:+: l))

theorem markerFree_mono {x l : List Char} (h : x <:+: l)
    (hl : markerFree l) : markerFree x :=
  ⟨fun hb => hl.1 (hb.trans h), fun ht => hl.2 (ht.trans h)⟩

theorem replaceCRLF_id : ∀ {l : List Char}, '\r' ∉ l → replaceCRLF l = l
  | [], _ => rfl
  | [_], _ => rfl
  | c :: d :: rest, h => by
    have hc : c ≠ '\r' := fun hh => h (hh ▸ List.mem_cons_self _ _)
    have h' : '\r' ∉ d :: rest := fun hh => h (List.mem_cons_of_mem _ hh)
    rw [replaceCRLF, if_neg (fun hh => hc hh.1), replaceCRLF_id h']

theorem splitLines_ne_nil (l : List Char) : splitLines l ≠ [] := by
  induction l with
  | nil => simp [splitLines]
  | cons c rest ih =>
    rw [splitLines]
    by_cases hc : c = '\n'
    · simp [hc]
    · simp only [if_neg hc]
      cases hsp : splitLines rest with
      | nil => simp
      | cons h t => simp

theorem joinLines_one (l : List Char) : joinLines [l] = l := rfl

theorem joinLines_cons (l h : List Char) (t : List (List Char)) :
    joinLines (l :: h :: t) = l ++ '\n' :: joinLines (h :: t) := rfl

theorem joinLines_splitLines : ∀ l : List Char, joinLines (splitLines l) = l := by
  intro l
  induction l with
  | nil => rfl
  | cons c rest ih =>
    by_cases hc : c = '\n'
    · subst hc
      rw [splitLines, if_pos rfl]
      cases hsp : splitLines rest with
      | nil => exact absurd hsp (splitLines_ne_nil rest)
      | cons h t =>
        rw [joinLines_cons, List.nil_append, ← hsp, ih]
    · rw [splitLines, if_neg hc]
      cases hsp : splitLines rest with
      | nil => exact absurd hsp (splitLines_ne_nil rest)
      | cons h t =>
        rw [hsp] at ih
        cases t with
        | nil =>
          show joinLines [c :: h] = c :: rest
          rw [joinLines_one]
          rw [joinLines_one] at ih
          rw [ih]
        | cons h2 t2 =>
          show joinLines ((c :: h) :: h2 :: t2) = c :: rest
          rw [joinLines_cons, List.cons_append, ← joinLines_cons, ih]

theorem splitLines_shape :
    ∀ l : List Char,
      (∀ x ∈ splitLines l, x <:+: l) ∧
      (∀ h t, splitLines l = h :: t → h <+: l) := by
  intro l
  induction l with
  | nil =>
    constructor
    · intro x hx
      simp [splitLines] at hx
      simp [hx]
    · intro h t hht
      simp [splitLines] at hht
      simp [hht.1]
  | cons c rest ih =>
    by_cases hc : c = '\n'
    · constructor
      · intro x hx
        rw [splitLines, if_pos hc] at hx
        rcases List.mem_cons.mp hx with rfl | hx2
        · exact List.nil_infix
        · exact List.infix_cons (ih.1 x hx2)
      · intro h t hht
        rw [splitLines, if_pos hc] at hht
        injection hht with h1 h2
        rw [← h1]
        exact List.nil_prefix
    · cases hsp : splitLines rest with
      | nil => exact absurd hsp (splitLines_ne_nil rest)
      | cons h0 t0 =>
        have hmain : splitLines (c :: rest) = (c :: h0) :: t0 := by
          rw [splitLines, if_neg hc, hsp]
        have hh0 : h0 <+: rest := ih.2 h0 t0 hsp
        constructor
        · intro x hx
          rw [hmain] at hx
          rcases List.mem_cons.mp hx with rfl | hx2
          · exact (List.cons_prefix_cons.mpr ⟨rfl, hh0⟩).isInfix
          · exact List.infix_cons (ih.1 x (hsp ▸ List.mem_cons_of_mem _ hx2))
        · intro h t hht
          rw [hmain] at hht
          injection hht with h1 h2
          rw [← h1]
          exact List.cons_prefix_cons.mpr ⟨rfl, hh0⟩

theorem jsTrimStart_sfx (l : List Char) : jsTrimStart l <:+ l :=
  List.dropWhile_suffix _

theorem jsTrimEnd_pfx (l : List Char) : jsTrimEnd l <+: l := by
  rw [← List.reverse_suffix]
  rw [jsTrimEnd, List.reverse_reverse]
  exact List.dropWhile_suffix _

theorem jsTrim_within (l : List Char) : jsTrim l <:+: l := by
  obtain ⟨t, ht⟩ := jsTrimEnd_pfx (jsTrimStart l)
  obtain ⟨s, hs⟩ := jsTrimStart_sfx l
  refine ⟨s, t, ?_⟩
  rw [jsTrim, List.append_assoc, ht, hs]

theorem splitAtFirstOcc_none {m : List Char} :
    ∀ {l : List Char}, ¬ m <:+: l → splitAtFirstOcc m l = none := by
  intro l
  induction l with
  | nil => intro _; rfl
  | cons c rest ih =>
    intro h
    rw [splitAtFirstOcc]
    have hp : ¬ List.isPrefixOf m (c :: rest) := fun hp =>
      h (List.isPrefixOf_iff_prefix.mp hp).isInfix
    rw [if_neg hp, ih (fun hi => h (List.infix_cons hi))]

theorem matchOpenFence_none {t : List Char} (h : markerFree t) :
    matchOpenFence t = none := by
  rw [matchOpenFence]
  have h1 : ¬ List.isPrefixOf backtick3 t := fun hp =>
    h.1 (List.isPrefixOf_iff_prefix.mp hp).isInfix
  have h2 : ¬ List.isPrefixOf tilde3 t := fun hp =>
    h.2 (List.isPrefixOf_iff_prefix.mp hp).isInfix
  rw [if_neg h1, if_neg h2]

theorem scanInlineFull_none : ∀ {l : List Char}, markerFree l →
    scanInlineFull l = none := by
  intro l
  induction l with
  | nil => intro _; rfl
  | cons c rest ih =>
    intro h
    have h1 : ¬ List.isPrefixOf backtick3 (c :: rest) := fun hp =>
      h.1 (List.isPrefixOf_iff_prefix.mp hp).isInfix
    have h2 : ¬ List.isPrefixOf tilde3 (c :: rest) := fun hp =>
      h.2 (List.isPrefixOf_iff_prefix.mp hp).isInfix
    rw [scanInlineFull, if_neg h1, if_neg h2,
      ih (markerFree_mono (List.infix_cons List.infix_rfl) h)]
    rfl

theorem scanTrailingOpen_none : ∀ {l : List Char}, markerFree l →
    scanTrailingOpen l = none := by
  intro l
  induction l with
  | nil => intro _; rfl
  | cons c rest ih =>
    intro h
    have h1 : ¬ List.isPrefixOf backtick3 (c :: rest) := fun hp =>
      h.1 (List.isPrefixOf_iff_prefix.mp hp).isInfix
    have h2 : ¬ List.isPrefixOf tilde3 (c :: rest) := fun hp =>
      h.2 (List.isPrefixOf_iff_prefix.mp hp).isInfix
    rw [scanTrailingOpen]
    simp only [h1, h2, Bool.false_and, if_neg (Bool.false_ne_true)]
    rw [ih (markerFree_mono (List.infix_cons List.infix_rfl) h)]
    rfl

theorem normLine_id {line : List Char} (h : markerFree line) :
    normLine none line = ([line], none) := by
  simp only [normLine,
    matchOpenFence_none (markerFree_mono (jsTrim_within line) h),
    scanInlineFull_none h, scanTrailingOpen_none h]

theorem normLinesGo_id : ∀ {lines : List (List Char)},
    (∀ x ∈ lines, markerFree x) → normLinesGo none lines = lines := by
  intro lines
  induction lines with
  | nil => intro _; rfl
  | cons l rest ih =>
    intro h
    rw [normLinesGo]
    simp only [normLine_id (h l (List.mem_cons_self _ _))]
    rw [ih (fun x hx => h x (List.mem_cons_of_mem _ hx))]
    rfl

/-- On text free of `\r` and of both fence markers,
`normalizeFenceBoundaries` is the identity. -/
theorem normalizeFenceBoundariesL_id {l : List Char} (h : markerFree l)
    (hr : '\r' ∉ l) : normalizeFenceBoundariesL l = l := by
  rw [normalizeFenceBoundariesL, replaceCRLF_id hr,
    normLinesGo_id (fun x hx => markerFree_mono ((splitLines_shape l).1 x hx) h),
    joinLines_splitLines]

/- ── Data model ───────────────────────────────────────────────────── -/

/-- A file reference collected from a message
(`collectFilesFromMessage`, src/config.js 1975-2051). -/
structure FileRef where
  name : String
  url : String
  image : Bool
deriving DecidableEq, Repr

/-- An enriched thread reply (src/config.js 1699-1705). -/
structure EnrichedReply where
  sender : String
  content : String
  timestamp : String
  messageFiles : List FileRef
deriving DecidableEq, Repr

/-- An enriched message (src/config.js 1708-1714). -/
structure EnrichedMessage where
  sender : String
  content : String
  timestamp : String
  threadReplies : List EnrichedReply
  messageFiles : List FileRef
deriving DecidableEq, Repr

/-- The persisted configuration (DEFAULT_CONFIG, src/config.js 4-15;
batch-only fields are modelled separately where needed). -/
structure Config where
  downloadDirectory : String
  fileNameFormat : String
  includeTimestamps : Bool
  includeThreadReplies : Bool
  historyDays : Nat
deriving DecidableEq, Repr

/-- `DEFAULT_CONFIG` (src/config.js 4-15). -/
def DEFAULT_CONFIG : Config :=
  { downloadDirectory := "slack-exports"
    fileNameFormat := "YYYYMMDD-HHmm-{channel}.md"
    includeTimestamps := true
    includeThreadReplies := true
    historyDays := 9999 }

/-- JS `str.trim()` on strings. -/
def jsTrimS (s : String) : String := ⟨jsTrim s.data⟩

/- ── escapeMarkdown (src/utils.js 248-264) ────────────────────────── -/

/-- `escapeMarkdown`: backslash-escapes the fixed metacharacter set via
the source's chain of twelve global replaces (backslash first). -/
def escapeMarkdown (text : String) : String :=
  if text = "" then ""
  else
    text
      |> jsReplaceAll "\\" "\\\\"
      |> jsReplaceAll "*" "\\*"
      |> jsReplaceAll "_" "\\_"
      |> jsReplaceAll "`" "\\`"
      |> jsReplaceAll "~" "\\~"
      |> jsReplaceAll "[" "\\["
      |> jsReplaceAll "]" "\\]"
      |> jsReplaceAll "(" "\\("
      |> jsReplaceAll ")" "\\)"
      |> jsReplaceAll "!" "\\!"
      |> jsReplaceAll "#" "\\#"
      |> jsReplaceAll "|" "\\|"

/- ── convertToMarkdown (src/config.js 793-837) ────────────────────── -/

/-- The markdown block one message contributes inside the
`for (const message of messages)` loop of `convertToMarkdown`.
`fmtTs` stands for `formatTimestamp`, whose output depends on the local
timezone; it is passed explicitly. -/
def messageBlock (fmtTs : String → String) (config : Config)
    (m : EnrichedMessage) : String :=
  (if m.sender ≠ "" then
    "**" ++ escapeMarkdown m.sender ++ "**" ++
      (if config.includeTimestamps ∧ m.timestamp ≠ "" then
        " (" ++ fmtTs m.timestamp ++ ")" else "") ++ ":\n"
   else "") ++
  (if m.content ≠ "" then m.content ++ "\n\n" else "") ++
  (if config.includeThreadReplies ∧ m.threadReplies ≠ [] then
    "**Thread Replies:**\n" ++
      String.join (m.threadReplies.map (fun r =>
        (if r.sender ≠ "" then "  • **" ++ escapeMarkdown r.sender ++ "**: "
         else "") ++
        (if r.content ≠ "" then r.content ++ "\n" else ""))) ++ "\n"
   else "")

/-- The document accumulated by `convertToMarkdown` before the final
`normalizeFenceBoundaries` call.  `exportTime` stands for
`new Date().toLocaleString()`. -/
def buildMarkdownDoc (fmtTs : String → String) (exportTime : String)
    (messages : List EnrichedMessage) (channelName : String)
    (config : Config) : String :=
  "# Slack Export Extension Export: " ++ channelName ++ "\n" ++
  "*Exported: " ++ exportTime ++ "*\n\n" ++
  "---\n\n" ++
  String.join (messages.map (messageBlock fmtTs config))

/-- `convertToMarkdown` (src/config.js 793-837). -/
def convertToMarkdown (fmtTs : String → String) (exportTime : String)
    (messages : List EnrichedMessage) (channelName : String)
    (config : Config) : String :=
  normalizeFenceBoundaries (buildMarkdownDoc fmtTs exportTime messages channelName config)

/- ── Fence markers cannot straddle safe glue text ─────────────────── -/

theorem notInfixAppendHead (c0 : Char) {u a b : List Char}
    (hall : ∀ x ∈ u, x = c0) (hna : ¬ u <:+: a) (hnb : ¬ u <:+: b)
    (hbh : ∀ d ∈ b.head?, d ≠ c0) : ¬ u <:+: a ++ b := by
  intro h
  rcases infixAppendSplit h with h1 | h1 | ⟨u₁, u₂, hequ, hne1, hne2, hs, hp⟩
  · exact hna h1
  · exact hnb h1
  · cases u₂ with
    | nil => exact hne2 rfl
    | cons d u₂' =>
      cases b with
      | nil =>
        have := List.prefix_nil.mp hp
        simp at this
      | cons e b' =>
        rw [List.cons_prefix_cons] at hp
        obtain ⟨rfl, -⟩ := hp
        have hd : d = c0 := hall d (by rw [hequ]; simp)
        exact hbh d rfl hd

theorem notInfixAppendLast (c0 : Char) {u a b : List Char}
    (hall : ∀ x ∈ u, x = c0) (hna : ¬ u <:+: a) (hnb : ¬ u <:+: b)
    (hal : ∀ d ∈ a.getLast?, d ≠ c0) : ¬ u <:+: a ++ b := by
  intro h
  rcases infixAppendSplit h with h1 | h1 | ⟨u₁, u₂, hequ, hne1, hne2, hs, hp⟩
  · exact hna h1
  · exact hnb h1
  · obtain ⟨s, hs1⟩ := hs
    have hlast : a.getLast? = u₁.getLast? := by
      rw [← hs1]
      exact List.getLast?_append_of_ne_nil s hne1
    cases hu1 : u₁.getLast? with
    | none => exact hne1 (List.getLast?_eq_none_iff.mp hu1)
    | some d =>
      have hd : d = c0 := by
        have hmem : d ∈ u₁ := List.mem_of_getLast?_eq_some hu1
        exact hall d (by rw [hequ]; exact List.mem_append_left _ hmem)
      exact hal d (by rw [hlast, hu1]; rfl) hd

/- ── C1: the zero-message channel export ──────────────────────────── -/

/-- Result object of `exportChannelViaAPI` (src/config.js 1578-1761). -/
structure ExportAPIResult where
  messageCount : Nat
  markdown : String
  channelName : String
deriving DecidableEq, Repr

/-- The zero-matching-messages branch of `exportChannelViaAPI`
(src/config.js 1590-1595): `convertToMarkdown([], channelName, config)`
wrapped in a result object. -/
def exportChannelViaAPIEmpty (fmtTs : String → String) (exportTime : String)
    (channelName : String) (config : Config) : ExportAPIResult :=
  { messageCount := 0
    markdown := convertToMarkdown fmtTs exportTime [] channelName config
    channelName := channelName }

/-- Fields of the `BATCH_EXPORT_CHANNEL` response relevant to C1. -/
structure BatchChannelResponse where
  success : Bool
  messageCount : Nat
  markdown : String
  channelName : String
deriving DecidableEq, Repr

/-- The `BATCH_EXPORT_CHANNEL` handler (src/config.js 115-152) on the
zero-message path: falls back to a fresh `convertToMarkdown([], ...)`
when the result markdown is empty/blank, then answers `success: true`.
(The save-to-disk side effects do not alter the fields modelled here.) -/
def batchExportChannelEmpty (fmtTs : String → String) (exportTime : String)
    (channelName : String) (config : Config) : BatchChannelResponse :=
  let result := exportChannelViaAPIEmpty fmtTs exportTime channelName config
  let markdown :=
    if result.markdown = "" ∨ jsTrimS result.markdown = "" then
      convertToMarkdown fmtTs exportTime [] channelName config
    else result.markdown
  { success := true
    messageCount := result.messageCount
    markdown := markdown
    channelName := channelName }

/-- ASCII lowering (what JS `toLowerCase` does on ASCII text). -/
def asciiLower (c : Char) : Char :=
  if 'A' ≤ c ∧ c ≤ 'Z' then Char.ofNat (c.toNat + 32) else c

/-- The document built for an empty message list is exactly the header. -/
theorem buildMarkdownDoc_empty_data (fmtTs : String → String)
    (exportTime channelName : String) (config : Config) :
    (buildMarkdownDoc fmtTs exportTime [] channelName config).data =
      ((((("# Slack Export Extension Export: ".data ++ channelName.data) ++
        "\n".data) ++ "*Exported: ".data) ++ exportTime.data) ++ "*\n\n".data) ++
        "---\n\n".data := by
  simp [buildMarkdownDoc, String.data_append, String.join]

/-- The empty-list document contains no fence marker when the channel
name and export time contain none. -/
theorem buildMarkdownDoc_empty_markerFree (fmtTs : String → String)
    (config : Config) {exportTime channelName : String}
    (hname : markerFree channelName.data) (htime : markerFree exportTime.data) :
    markerFree (buildMarkdownDoc fmtTs exportTime [] channelName config).data := by
  rw [markerFree, buildMarkdownDoc_empty_data]
  constructor
  · refine notInfixAppendHead bq (by decide) ?_ (by decide) (by decide)
    refine notInfixAppendHead bq (by decide) ?_ (by decide) (by decide)
    refine notInfixAppendLast bq (by decide) ?_ htime.1 ?_
    · refine notInfixAppendHead bq (by decide) ?_ (by decide) (by decide)
      refine notInfixAppendHead bq (by decide) ?_ (by decide) (by decide)
      exact notInfixAppendLast bq (by decide) (by decide) hname.1 (by decide)
    · rw [List.getLast?_append_of_ne_nil _ (show "*Exported: ".data ≠ [] by decide)]
      decide
  · refine notInfixAppendHead '~' (by decide) ?_ (by decide) (by decide)
    refine notInfixAppendHead '~' (by decide) ?_ (by decide) (by decide)
    refine notInfixAppendLast '~' (by decide) ?_ htime.2 ?_
    · refine notInfixAppendHead '~' (by decide) ?_ (by decide) (by decide)
      refine notInfixAppendHead '~' (by decide) ?_ (by decide) (by decide)
      exact notInfixAppendLast '~' (by decide) (by decide) hname.2 (by decide)
    · rw [List.getLast?_append_of_ne_nil _ (show "*Exported: ".data ≠ [] by decide)]
      decide

/-- The empty-list document contains no carriage return when its variable
parts contain none. -/
theorem buildMarkdownDoc_empty_noCR (fmtTs : String → String)
    (config : Config) {exportTime channelName : String}
    (hname : '\r' ∉ channelName.data) (htime : '\r' ∉ exportTime.data) :
    '\r' ∉ (buildMarkdownDoc fmtTs exportTime [] channelName config).data := by
  rw [buildMarkdownDoc_empty_data]
  intro h
  simp only [List.mem_append] at h
  rcases h with ((((h | h) | h) | h) | h) | h
  · rcases h with h | h
    · revert h; decide
    · exact hname h
  · revert h; decide
  · revert h; decide
  · exact htime h
  · revert h; decide
  · revert h; decide

theorem normalizeFenceBoundaries_id {s : String} (h : markerFree s.data)
    (hr : '\r' ∉ s.data) : normalizeFenceBoundaries s = s := by
  rw [normalizeFenceBoundaries, normalizeFenceBoundariesL_id h hr]

theorem batchExportChannelEmpty_markdown (fmtTs : String → String)
    (exportTime channelName : String) (config : Config) :
    (batchExportChannelEmpty fmtTs exportTime channelName config).markdown =
      convertToMarkdown fmtTs exportTime [] channelName config := by
  rw [batchExportChannelEmpty]
  simp only [exportChannelViaAPIEmpty]
  split <;> rfl

/-- C1: the claim as stated is false on the code.  A concrete
zero-message export of channel "general" returns `success: true` with a
non-empty markdown document containing the channel name, but the
document carries **no** "no messages" note of any casing — it is the
bare header. -/
theorem c1_counterexample :
    (batchExportChannelEmpty id "1/1/2024, 3:04:05 AM" "general" DEFAULT_CONFIG).success
        = true ∧
    (batchExportChannelEmpty id "1/1/2024, 3:04:05 AM" "general" DEFAULT_CONFIG).markdown
        ≠ "" ∧
    "general".data <:+:
      (batchExportChannelEmpty id "1/1/2024, 3:04:05 AM" "general" DEFAULT_CONFIG).markdown.data ∧
    ¬ ("no messages".data <:+:
        ((batchExportChannelEmpty id "1/1/2024, 3:04:05 AM" "general"
          DEFAULT_CONFIG).markdown.data.map asciiLower)) := by
  decide

/-- C1 (amended): for every channel whose fetched history contains zero
matching messages, the `BATCH_EXPORT_CHANNEL` response has
`success: true` and a non-empty markdown document containing the channel
name (the bare header; no "no messages" note is emitted), provided the
channel name and export time contain no fence marker and no carriage
return. -/
theorem c1_zero_message_export (fmtTs : String → String)
    (exportTime channelName : String) (config : Config)
    (hname : markerFree channelName.data) (htime : markerFree exportTime.data)
    (hnc : '\r' ∉ channelName.data) (htc : '\r' ∉ exportTime.data) :
    (batchExportChannelEmpty fmtTs exportTime channelName config).success = true ∧
    (batchExportChannelEmpty fmtTs exportTime channelName config).markdown ≠ "" ∧
    channelName.data <:+:
      (batchExportChannelEmpty fmtTs exportTime channelName config).markdown.data := by
  have hdoc := buildMarkdownDoc_empty_data fmtTs exportTime channelName config
  have hmd : convertToMarkdown fmtTs exportTime [] channelName config =
      buildMarkdownDoc fmtTs exportTime [] channelName config := by
    rw [convertToMarkdown]
    exact normalizeFenceBoundaries_id
      (buildMarkdownDoc_empty_markerFree fmtTs config hname htime)
      (buildMarkdownDoc_empty_noCR fmtTs config hnc htc)
  have hresp := batchExportChannelEmpty_markdown fmtTs exportTime channelName config
  refine ⟨rfl, ?_, ?_⟩
  · rw [hresp, hmd]
    intro h
    have h2 := congrArg String.data h
    rw [hdoc] at h2
    simp only [List.append_eq_nil] at h2
    exact absurd h2.2 (by decide)
  · rw [hresp, hmd, hdoc]
    refine ⟨"# Slack Export Extension Export: ".data,
      "\n".data ++ "*Exported: ".data ++ exportTime.data ++ "*\n\n".data ++
        "---\n\n".data, ?_⟩
    simp [List.append_assoc]

/-- Witness discharging the hypotheses of `c1_zero_message_export` at a
concrete input. -/
theorem c1_zero_message_export_witness :
    (markerFree "general".data ∧ markerFree "Jan 1, 2024".data ∧
      '\r' ∉ "general".data ∧ '\r' ∉ "Jan 1, 2024".data) ∧
    ((batchExportChannelEmpty id "Jan 1, 2024" "general" DEFAULT_CONFIG).success = true ∧
     (batchExportChannelEmpty id "Jan 1, 2024" "general" DEFAULT_CONFIG).markdown ≠ "" ∧
     "general".data <:+:
       (batchExportChannelEmpty id "Jan 1, 2024" "general" DEFAULT_CONFIG).markdown.data) :=
  ⟨⟨by decide, by decide, by decide, by decide⟩,
    c1_zero_message_export id "Jan 1, 2024" "general" DEFAULT_CONFIG
      (by decide) (by decide) (by decide) (by decide)⟩

/- ── C3: is every convertToMarkdown output a normalize fixed point? ── -/

/-- A message whose content holds an inline fence pair plus a trailing
opening fence: the first normalization pass leaves the suffix line
`z ~`-style un-reprocessed, which a second pass then splits again. -/
def c3Msg : EnrichedMessage :=
  { sender := "s", content := "x ``` y ``` z ```", timestamp := "",
    threadReplies := [], messageFiles := [] }

/-- C3: the claim as stated is false — this `convertToMarkdown` output is
not a fixed point of `normalizeFenceBoundaries`. -/
theorem c3_counterexample :
    normalizeFenceBoundaries (convertToMarkdown id "t" [c3Msg] "c" DEFAULT_CONFIG) ≠
      convertToMarkdown id "t" [c3Msg] "c" DEFAULT_CONFIG := by
  decide

/-- C3 (amended): a `convertToMarkdown` output is a fixed point of
`normalizeFenceBoundaries` whenever the rendered document (before the
final normalization pass) contains no fence marker and no carriage
return. -/
theorem c3_fence_free_fixed_point (fmtTs : String → String) (exportTime : String)
    (messages : List EnrichedMessage) (channelName : String) (config : Config)
    (hfree : markerFree (buildMarkdownDoc fmtTs exportTime messages channelName config).data)
    (hcr : '\r' ∉ (buildMarkdownDoc fmtTs exportTime messages channelName config).data) :
    normalizeFenceBoundaries
        (convertToMarkdown fmtTs exportTime messages channelName config) =
      convertToMarkdown fmtTs exportTime messages channelName config := by
  have hid := normalizeFenceBoundaries_id hfree hcr
  rw [convertToMarkdown, hid]
  exact hid

/-- Witness discharging the hypotheses of `c3_fence_free_fixed_point` at a
concrete input. -/
theorem c3_fence_free_fixed_point_witness :
    (markerFree (buildMarkdownDoc id "Jan 1, 2024"
        [{ sender := "alice", content := "hello world", timestamp := "",
           threadReplies := [], messageFiles := [] }] "general" DEFAULT_CONFIG).data ∧
      '\r' ∉ (buildMarkdownDoc id "Jan 1, 2024"
        [{ sender := "alice", content := "hello world", timestamp := "",
           threadReplies := [], messageFiles := [] }] "general" DEFAULT_CONFIG).data) ∧
    normalizeFenceBoundaries (convertToMarkdown id "Jan 1, 2024"
        [{ sender := "alice", content := "hello world", timestamp := "",
           threadReplies := [], messageFiles := [] }] "general" DEFAULT_CONFIG) =
      convertToMarkdown id "Jan 1, 2024"
        [{ sender := "alice", content := "hello world", timestamp := "",
           threadReplies := [], messageFiles := [] }] "general" DEFAULT_CONFIG :=
  ⟨⟨by decide, by decide⟩,
    c3_fence_free_fixed_point id "Jan 1, 2024"
      [{ sender := "alice", content := "hello world", timestamp := "",
         threadReplies := [], messageFiles := [] }] "general" DEFAULT_CONFIG
      (by decide) (by decide)⟩

/- ── C7: getBatchExportState staleness (popup.js 825-864) ─────────── -/

/-- `BATCH_EXPORT_STATE_STALE_MS` (popup.js background part). -/
def BATCH_EXPORT_STATE_STALE_MS : Int := 45000

/-- The durable batch-progress record (`DEFAULT_BATCH_EXPORT_STATE`).
`channelStatuses` is modelled as an association list. -/
structure BatchExportState where
  active : Bool
  totalChannels : Nat
  completedChannels : Nat
  currentChannelId : String
  currentChannelName : String
  activityText : String
  stage : String
  messageCount : Nat
  attachmentCount : Nat
  fetchedThreads : Nat
  totalThreads : Nat
  progressPercent : Nat
  channelStatuses : List (String × String)
  updatedAt : Int
deriving DecidableEq, Repr

/-- `DEFAULT_BATCH_EXPORT_STATE` (popup.js background part). -/
def DEFAULT_BATCH_EXPORT_STATE : BatchExportState :=
  { active := false
    totalChannels := 0
    completedChannels := 0
    currentChannelId := ""
    currentChannelName := ""
    activityText := ""
    stage := ""
    messageCount := 0
    attachmentCount := 0
    fetchedThreads := 0
    totalThreads := 0
    progressPercent := 0
    channelStatuses := []
    updatedAt := 0 }

/-- `getBatchExportState` (popup.js background part, lines 844-864):
`stored` is the value found under the storage key, `now` is `Date.now()`.
Returns the state handed to the caller and the state written back to
storage, if any. -/
def getBatchExportState (stored : Option BatchExportState) (now : Int) :
    BatchExportState × Option BatchExportState :=
  let state := stored.getD DEFAULT_BATCH_EXPORT_STATE
  if state.active ∧ state.updatedAt ≠ 0 ∧
      now - state.updatedAt > BATCH_EXPORT_STATE_STALE_MS then
    let staleState :=
      { state with
        active := false
        stage := "stale"
        activityText := "Export status stale"
        updatedAt := now }
    (staleState, some staleState)
  else (state, none)

/-- C7: the claim as stated is false on the code.  A stored state with
`active: true` and `updatedAt = 0` that is read 50 seconds after epoch
satisfies the claim's premise (more than 45 s older than the read time)
yet is returned unchanged, because the source additionally requires
`state.updatedAt` to be truthy (non-zero). -/
theorem c7_counterexample :
    ({ DEFAULT_BATCH_EXPORT_STATE with active := true } : BatchExportState).active = true ∧
    (50000 : Int) -
        ({ DEFAULT_BATCH_EXPORT_STATE with active := true } : BatchExportState).updatedAt >
      45000 ∧
    (getBatchExportState (some { DEFAULT_BATCH_EXPORT_STATE with active := true })
        50000).1.active = true ∧
    (getBatchExportState (some { DEFAULT_BATCH_EXPORT_STATE with active := true })
        50000).1.stage ≠ "stale" := by
  decide

/-- C7 (amended): a stored state with `active: true`, a non-zero
`updatedAt`, and an age beyond the 45-second staleness window is
returned with `active: false` and stage `"stale"` (and written back);
any other stored state is returned as-is with no write. -/
theorem c7_staleness (stored : BatchExportState) (now : Int) :
    ((stored.active = true ∧ stored.updatedAt ≠ 0 ∧
        now - stored.updatedAt > 45000) →
      (getBatchExportState (some stored) now).1.active = false ∧
      (getBatchExportState (some stored) now).1.stage = "stale") ∧
    (¬ (stored.active = true ∧ stored.updatedAt ≠ 0 ∧
        now - stored.updatedAt > 45000) →
      getBatchExportState (some stored) now = (stored, none)) := by
  constructor
  · intro h
    rw [getBatchExportState]
    simp only [Option.getD_some]
    rw [show BATCH_EXPORT_STATE_STALE_MS = (45000 : Int) from rfl, if_pos h]
    exact ⟨rfl, rfl⟩
  · intro h
    rw [getBatchExportState]
    simp only [Option.getD_some]
    rw [show BATCH_EXPORT_STATE_STALE_MS = (45000 : Int) from rfl, if_neg h]

/-- Witness for `c7_staleness` at a concrete stale input. -/
theorem c7_staleness_witness :
    (({ DEFAULT_BATCH_EXPORT_STATE with active := true, updatedAt := 1 } :
        BatchExportState).active = true ∧
      ({ DEFAULT_BATCH_EXPORT_STATE with active := true, updatedAt := 1 } :
        BatchExportState).updatedAt ≠ 0 ∧
      (50001 : Int) -
          ({ DEFAULT_BATCH_EXPORT_STATE with active := true, updatedAt := 1 } :
            BatchExportState).updatedAt > 45000) ∧
    (getBatchExportState
        (some { DEFAULT_BATCH_EXPORT_STATE with active := true, updatedAt := 1 })
        50001).1.active = false ∧
    (getBatchExportState
        (some { DEFAULT_BATCH_EXPORT_STATE with active := true, updatedAt := 1 })
        50001).1.stage = "stale" :=
  ⟨⟨by decide, by decide, by decide⟩,
    (c7_staleness { DEFAULT_BATCH_EXPORT_STATE with active := true, updatedAt := 1 }
      50001).1 ⟨by decide, by decide, by decide⟩⟩

/- ── C9: handleFileDownload path computation (popup.js 1167-1216) ─── -/

/-- The download-path computation of `handleFileDownload`: trims the
configured directory, drops every `/` and `\` from it, and prepends it
to the filename; a missing/blank directory leaves the bare filename. -/
def handleFileDownloadPath (filename directory : String) : String :=
  if directory ≠ "" ∧ jsTrimS directory ≠ "" then
    let cleanDirectory : String :=
      ⟨(jsTrim directory.data).filter (fun c => ¬ (c = '/' ∨ c = '\\'))⟩
    cleanDirectory ++ "/" ++ filename
  else filename

/-- Modelled from the claim's words: the directory string with every `/`
and `\` character removed (and nothing else). -/
def claimCleanedDirectory (directory : String) : String :=
  ⟨directory.data.filter (fun c => ¬ (c = '/' ∨ c = '\\'))⟩

/-- C9: the claim as stated is false on the code.  For the non-empty
directory `"a "` the code first trims, so the final path is `"a/f.md"`,
not the claim's `cleanedDirectory + "/" + filename` = `"a /f.md"`. -/
theorem c9_counterexample :
    "a " ≠ "" ∧
    handleFileDownloadPath "f.md" "a " ≠
      claimCleanedDirectory "a " ++ "/" ++ "f.md" := by
  decide

/-- C9 (amended): for a directory whose trim is non-empty, the path is
the trimmed directory with all `/` and `\` removed, then `/`, then the
filename; a whitespace-only (or empty) directory is treated as absent. -/
theorem c9_download_path (filename directory : String) :
    (jsTrimS directory ≠ "" →
      handleFileDownloadPath filename directory =
        claimCleanedDirectory (jsTrimS directory) ++ "/" ++ filename) ∧
    (jsTrimS directory = "" →
      handleFileDownloadPath filename directory = filename) := by
  constructor
  · intro h
    have hdir : directory ≠ "" := by
      intro he
      rw [he] at h
      exact h rfl
    rw [handleFileDownloadPath, if_pos ⟨hdir, h⟩]
    rfl
  · intro h
    rw [handleFileDownloadPath, if_neg (fun hh => hh.2 h)]

/-- Witness for `c9_download_path` at a concrete input with surrounding
whitespace and a path separator in the directory. -/
theorem c9_download_path_witness :
    jsTrimS " a/b " ≠ "" ∧
    handleFileDownloadPath "f.md" " a/b " =
      claimCleanedDirectory (jsTrimS " a/b ") ++ "/" ++ "f.md" :=
  ⟨by decide, (c9_download_path "f.md" " a/b ").1 (by decide)⟩

/- ── C8: export filename generation ───────────────────────────────── -/

/-- The local-time components read off `new Date()` by the filename
generators (`monthIndex` is the 0-based `getMonth()` value). -/
structure LocalDate where
  year : Nat
  monthIndex : Nat
  day : Nat
  hour : Nat
  minute : Nat
deriving DecidableEq, Repr

/-- JS `str.padStart(n, '0')`. -/
def padZero (n : Nat) (s : String) : String :=
  if s.length ≥ n then s else ⟨List.replicate (n - s.length) '0' ++ s.data⟩

/-- The `${yyyy}${mm}${dd}-${hh}${min}` date string built by the popup's
`generateFilename` (popup.js 766-778). -/
def exportDateStr (d : LocalDate) : String :=
  toString d.year ++ padZero 2 (toString (d.monthIndex + 1)) ++
    padZero 2 (toString d.day) ++ "-" ++ padZero 2 (toString d.hour) ++
    padZero 2 (toString d.minute)

/-- The `-+` global replace of the popup generator: collapses every run
of hyphens to a single hyphen. -/
def collapseDashesAux (prevDash : Bool) : List Char → List Char
  | [] => []
  | c :: rest =>
    if c = '-' then
      (if prevDash then [] else ['-']) ++ collapseDashesAux true rest
    else c :: collapseDashesAux false rest

/-- The popup's `generateFilename` (popup.js 766-778): maps characters
outside `[a-zA-Z0-9\-_]` to `-`, collapses hyphen runs, lowercases, and
substitutes both tokens of `fileNameFormat` (with the default format as
fallback for a blank one). -/
def popupGenerateFilename (cfg : Config) (d : LocalDate) (channelName : String) :
    String :=
  let cleanChannel : String :=
    ⟨(collapseDashesAux false
        (channelName.data.map (fun c => if isWordChar c then c else '-'))).map
      asciiLower⟩
  let fmt := if cfg.fileNameFormat = "" then "YYYYMMDD-HHmm-{channel}.md"
             else cfg.fileNameFormat
  jsReplaceFirst "{channel}" cleanChannel
    (jsReplaceFirst "YYYYMMDD-HHmm" (exportDateStr d) fmt)

/-- `formatDate` (src/utils.js 11-24). -/
def formatDate (d : LocalDate) (format : String) : String :=
  format
    |> jsReplaceFirst "YYYY" (toString d.year)
    |> jsReplaceFirst "MM" (padZero 2 (toString (d.monthIndex + 1)))
    |> jsReplaceFirst "DD" (padZero 2 (toString d.day))
    |> jsReplaceFirst "HH" (padZero 2 (toString d.hour))
    |> jsReplaceFirst "mm" (padZero 2 (toString d.minute))

/-- The content-script utility's `generateFilename` (src/utils.js
195-203): maps characters outside `[a-zA-Z0-9-_]` to `-` (no collapsing,
no lowercasing) and substitutes both tokens of `fileNameFormat`. -/
def utilsGenerateFilename (cfg : Config) (d : LocalDate) (channelName : String) :
    String :=
  let dateStr := formatDate d "YYYYMMDD-HHmm"
  let cleanChannel : String :=
    ⟨channelName.data.map (fun c => if isWordChar c then c else '-')⟩
  jsReplaceFirst "{channel}" cleanChannel
    (jsReplaceFirst "YYYYMMDD-HHmm" dateStr cfg.fileNameFormat)

/-- Modelled from the claim's words: the channel name lowercased with
every run of characters outside `[A-Za-z0-9_-]` collapsed to a single
hyphen. -/
def claimCleanAux (prevBad : Bool) : List Char → List Char
  | [] => []
  | c :: rest =>
    if isWordChar c then asciiLower c :: claimCleanAux false rest
    else (if prevBad then [] else ['-']) ++ claimCleanAux true rest

/-- Modelled from the claim's words: the claimed filename formula. -/
def claimFilename (cfg : Config) (d : LocalDate) (channelName : String) : String :=
  jsReplaceFirst "{channel}" ⟨claimCleanAux false channelName.data⟩
    (jsReplaceFirst "YYYYMMDD-HHmm" (exportDateStr d) cfg.fileNameFormat)

/-- C8: the claim as stated is false on the code.  At the claim's own
example input — channel `"General Chat"`, default format, local time
2024-01-02 03:04 — the content-script utility generator produces
`"20240102-0304-General-Chat.md"` (no lowercasing), not the claimed
`"20240102-0304-general-chat.md"`. -/
theorem c8_counterexample :
    claimFilename DEFAULT_CONFIG ⟨2024, 0, 2, 3, 4⟩ "General Chat" =
      "20240102-0304-general-chat.md" ∧
    utilsGenerateFilename DEFAULT_CONFIG ⟨2024, 0, 2, 3, 4⟩ "General Chat" =
      "20240102-0304-General-Chat.md" ∧
    utilsGenerateFilename DEFAULT_CONFIG ⟨2024, 0, 2, 3, 4⟩ "General Chat" ≠
      claimFilename DEFAULT_CONFIG ⟨2024, 0, 2, 3, 4⟩ "General Chat" := by
  decide

theorem popupClean_eq_claimClean :
    ∀ (l : List Char) (prev : Bool), '-' ∉ l →
      (collapseDashesAux prev (l.map (fun c => if isWordChar c then c else '-'))).map
          asciiLower =
        claimCleanAux prev l := by
  intro l
  induction l with
  | nil => intro prev _; rfl
  | cons c rest ih =>
    intro prev h
    have hc : c ≠ '-' := fun hh => h (hh ▸ List.mem_cons_self _ _)
    have h' : '-' ∉ rest := fun hh => h (List.mem_cons_of_mem _ hh)
    by_cases hw : isWordChar c
    · simp only [List.map_cons, if_pos hw, collapseDashesAux, if_neg hc,
        claimCleanAux]
      rw [ih false h']
    · simp only [List.map_cons, if_neg hw, collapseDashesAux, if_pos rfl,
        claimCleanAux, if_true, List.map_append]
      rw [ih true h']
      cases prev <;> rfl

/-- C8 (amended): the popup generator agrees with the claimed formula for
every channel name containing no hyphen (and non-blank `fileNameFormat`);
the utility generator differs (see the counterexample) because it neither
collapses hyphen runs nor lowercases. -/
theorem c8_popup_filename (cfg : Config) (d : LocalDate) (channelName : String)
    (hfmt : cfg.fileNameFormat ≠ "") (hname : '-' ∉ channelName.data) :
    popupGenerateFilename cfg d channelName = claimFilename cfg d channelName := by
  rw [popupGenerateFilename, claimFilename]
  simp only [if_neg hfmt]
  rw [popupClean_eq_claimClean channelName.data false hname]

/-- Witness for `c8_popup_filename`: the popup generator does produce the
claim's example filename. -/
theorem c8_popup_filename_witness :
    (DEFAULT_CONFIG.fileNameFormat ≠ "" ∧ '-' ∉ "General Chat".data) ∧
    popupGenerateFilename DEFAULT_CONFIG ⟨2024, 0, 2, 3, 4⟩ "General Chat" =
      claimFilename DEFAULT_CONFIG ⟨2024, 0, 2, 3, 4⟩ "General Chat" :=
  ⟨⟨by decide, by decide⟩,
    c8_popup_filename DEFAULT_CONFIG ⟨2024, 0, 2, 3, 4⟩ "General Chat"
      (by decide) (by decide)⟩

/- ── C10: sanitizeFileName / buildUniqueAssetFilename ─────────────── -/

/-- The character class removed by `sanitizeFileName`
(src/config.js 1454-1469): the path separators and `? * | " < > :`. -/
def isForbiddenFileChar (c : Char) : Bool :=
  c = '/' || c = '\\' || c = '?' || c = '*' || c = '|' || c = '"' ||
  c = '<' || c = '>' || c = ':'

/-- The `\s+` → `_` global replace: each whitespace run becomes one
underscore. -/
def collapseWsAux (prevWs : Bool) : List Char → List Char
  | [] => []
  | c :: rest =>
    if isJsWs c then
      (if prevWs then [] else ['_']) ++ collapseWsAux true rest
    else c :: collapseWsAux false rest

/-- The `sanitized` value of `sanitizeFileName` before the extension
check: forbidden characters to `_`, whitespace runs to `_`, truncated to
200 characters. -/
def sanitizeCore (filename : String) : String :=
  ⟨(collapseWsAux false
      (filename.data.map
        (fun c => if isForbiddenFileChar c then '_' else c))).take 200⟩

/-- `sanitizeFileName` (src/config.js 1454-1469); `now` stands for the
`Date.now()` read of the empty-name fallback. -/
def sanitizeFileName (now : Nat) (filename : String) : String :=
  if filename = "" then "file-" ++ toString now
  else if (sanitizeCore filename).data.contains '.' then sanitizeCore filename
  else sanitizeCore filename ++ ".bin"

/-- JS `str.lastIndexOf(ch)` on char lists (−1 when absent). -/
def lastIndexOfChar : List Char → Char → Int
  | [], _ => -1
  | a :: rest, ch =>
    let r := lastIndexOfChar rest ch
    if r ≥ 0 then r + 1 else if a = ch then 0 else -1

/-- The `hasExt` test of `buildUniqueAssetFilename`:
`lastDotIndex > 0 && lastDotIndex < sanitized.length - 1`. -/
def assetHasExt (s : String) : Prop :=
  0 < lastIndexOfChar s.data '.' ∧
    lastIndexOfChar s.data '.' < (s.data.length : Int) - 1

instance (s : String) : Decidable (assetHasExt s) :=
  inferInstanceAs (Decidable (_ ∧ _))

/-- The `ext` value of `buildUniqueAssetFilename`. -/
def assetExt (s : String) : String :=
  if assetHasExt s then ⟨s.data.drop (lastIndexOfChar s.data '.').toNat⟩
  else ".bin"

/-- The `base` value of `buildUniqueAssetFilename`. -/
def assetBase (s : String) : String :=
  if assetHasExt s then ⟨s.data.take (lastIndexOfChar s.data '.').toNat⟩
  else s

/-- `buildUniqueAssetFilename` (src/config.js 1479-1489): the `safeBase`
is `base.slice(0, 140)` and the result is
`exportPrefix-sequence-safeBase ++ ext`. -/
def buildUniqueAssetFilename (now : Nat) (originalName exportPrefix : String)
    (index : Nat) : String :=
  exportPrefix ++ "-" ++ padZero 4 (toString (index + 1)) ++ "-" ++
    ⟨(assetBase (sanitizeFileName now originalName)).data.take 140⟩ ++
    assetExt (sanitizeFileName now originalName)

/-- The ten decimal digit characters. -/
def digitChars : List Char := ['0', '1', '2', '3', '4', '5', '6', '7', '8', '9']

theorem digitChar_mem {m : Nat} (h : m < 10) : Nat.digitChar m ∈ digitChars := by
  interval_cases m <;> decide

theorem toDigitsCore_chars :
    ∀ (fuel n : Nat) (ds : List Char), (∀ c ∈ ds, c ∈ digitChars) →
      ∀ c ∈ Nat.toDigitsCore 10 fuel n ds, c ∈ digitChars := by
  intro fuel
  induction fuel with
  | zero => intro n ds h c hc; exact h c hc
  | succ f ih =>
    intro n ds h c hc
    rw [Nat.toDigitsCore] at hc
    split at hc
    · rcases List.mem_cons.mp hc with rfl | h2
      · exact digitChar_mem (Nat.mod_lt n (by omega))
      · exact h c h2
    · refine ih (n / 10) _ ?_ c hc
      intro d hd
      rcases List.mem_cons.mp hd with rfl | h2
      · exact digitChar_mem (Nat.mod_lt n (by omega))
      · exact h d h2

theorem natToString_chars (n : Nat) : ∀ c ∈ (toString n).data, c ∈ digitChars := by
  intro c hc
  exact toDigitsCore_chars (n + 1) n [] (by simp) c hc

theorem digit_safeChar {c : Char} (h : c ∈ digitChars) :
    isForbiddenFileChar c = false ∧ isJsWs c = false :=
  (by decide :
    ∀ c ∈ digitChars, isForbiddenFileChar c = false ∧ isJsWs c = false) c h

theorem collapseWsAux_chars :
    ∀ (l : List Char) (prev : Bool), (∀ c ∈ l, isForbiddenFileChar c = false) →
      ∀ c ∈ collapseWsAux prev l,
        isForbiddenFileChar c = false ∧ isJsWs c = false := by
  intro l
  induction l with
  | nil =>
    intro prev _ c hc
    simp [collapseWsAux] at hc
  | cons a rest ih =>
    intro prev h c hc
    rw [collapseWsAux] at hc
    by_cases hw : isJsWs a
    · rw [if_pos hw] at hc
      rcases List.mem_append.mp hc with h1 | h2
      · have hcu : c = '_' := by
          cases prev with
          | true => simp at h1
          | false =>
            simp at h1
            exact h1
        subst hcu
        exact ⟨by decide, by decide⟩
      · exact ih true (fun d hd => h d (List.mem_cons_of_mem _ hd)) c h2
    · rw [if_neg hw] at hc
      rcases List.mem_cons.mp hc with rfl | h2
      · exact ⟨h c (List.mem_cons_self _ _), by simpa using hw⟩
      · exact ih false (fun d hd => h d (List.mem_cons_of_mem _ hd)) c h2

theorem memOfMemTake {c : Char} {n : Nat} {l : List Char} (h : c ∈ l.take n) :
    c ∈ l := by
  have hsplit := List.take_append_drop n l
  rw [← hsplit]
  exact List.mem_append_left _ h

theorem memOfMemDrop {c : Char} {n : Nat} {l : List Char} (h : c ∈ l.drop n) :
    c ∈ l := by
  have hsplit := List.take_append_drop n l
  rw [← hsplit]
  exact List.mem_append_right _ h

/-- Every character of a `sanitizeFileName` output is neither a forbidden
filename character nor whitespace. -/
theorem sanitizeCore_chars (filename : String) :
    ∀ c ∈ (sanitizeCore filename).data,
      isForbiddenFileChar c = false ∧ isJsWs c = false := by
  intro c hc
  have hmapped : ∀ d ∈ (String.data filename).map
      (fun c => if isForbiddenFileChar c then '_' else c),
      isForbiddenFileChar d = false := by
    intro d hd
    obtain ⟨e, -, he⟩ := List.mem_map.mp hd
    by_cases hf : isForbiddenFileChar e
    · rw [if_pos hf] at he
      rw [← he]
      decide
    · rw [if_neg hf] at he
      rw [← he]
      simpa using hf
  exact collapseWsAux_chars _ false hmapped c (memOfMemTake hc)

theorem sanitizeFileName_chars (now : Nat) (filename : String) :
    ∀ c ∈ (sanitizeFileName now filename).data,
      isForbiddenFileChar c = false ∧ isJsWs c = false := by
  intro c hc
  rw [sanitizeFileName] at hc
  split at hc
  · rw [String.data_append] at hc
    rcases List.mem_append.mp hc with h1 | h2
    · exact (by decide : ∀ c ∈ "file-".data,
        isForbiddenFileChar c = false ∧ isJsWs c = false) c h1
    · exact digit_safeChar (natToString_chars now c h2)
  · split at hc
    · exact sanitizeCore_chars filename c hc
    · rw [String.data_append] at hc
      rcases List.mem_append.mp hc with h1 | h2
      · exact sanitizeCore_chars filename c h1
      · exact (by decide : ∀ c ∈ ".bin".data,
          isForbiddenFileChar c = false ∧ isJsWs c = false) c h2

theorem lastIndexOfChar_head :
    ∀ (l : List Char) (ch : Char), 0 ≤ lastIndexOfChar l ch →
      (l.drop (lastIndexOfChar l ch).toNat).head? = some ch := by
  intro l
  induction l with
  | nil =>
    intro ch h
    simp [lastIndexOfChar] at h
  | cons a rest ih =>
    intro ch h
    rw [lastIndexOfChar]
    by_cases hr : lastIndexOfChar rest ch ≥ 0
    · rw [if_pos hr]
      have htn : (lastIndexOfChar rest ch + 1).toNat =
          (lastIndexOfChar rest ch).toNat + 1 := by omega
      rw [htn, List.drop_succ_cons]
      exact ih ch hr
    · rw [if_neg hr]
      by_cases ha : a = ch
      · rw [if_pos ha, ha]
        rfl
      · rw [if_neg ha]
        rw [lastIndexOfChar, if_neg hr, if_neg ha] at h
        omega

/-- C10: `buildUniqueAssetFilename` always returns
`exportPrefix ++ "-" ++ zero-padded sequence ++ "-" ++ base ++ ext` where
the base is at most 140 characters, the extension is present and starts
with `.`, and neither part contains a path separator, a forbidden
character (`? * | " < > :`), or whitespace. -/
theorem c10_asset_filename (now : Nat) (originalName exportPrefix : String)
    (index : Nat) :
    ∃ base ext : String,
      buildUniqueAssetFilename now originalName exportPrefix index =
        exportPrefix ++ "-" ++ padZero 4 (toString (index + 1)) ++ "-" ++
          base ++ ext ∧
      base.data.length ≤ 140 ∧
      ext.data.head? = some '.' ∧
      (∀ c ∈ base.data ++ ext.data,
        isForbiddenFileChar c = false ∧ isJsWs c = false) := by
  by_cases hext : assetHasExt (sanitizeFileName now originalName)
  · refine ⟨⟨((sanitizeFileName now originalName).data.take
        (lastIndexOfChar (sanitizeFileName now originalName).data '.').toNat).take 140⟩,
      ⟨(sanitizeFileName now originalName).data.drop
        (lastIndexOfChar (sanitizeFileName now originalName).data '.').toNat⟩,
      ?_, ?_, ?_, ?_⟩
    · rw [buildUniqueAssetFilename, assetBase, assetExt, if_pos hext, if_pos hext]
    · simpa using List.length_take_le 140 _
    · exact lastIndexOfChar_head _ '.' (le_of_lt hext.1)
    · intro c hc
      rcases List.mem_append.mp hc with h1 | h2
      · exact sanitizeFileName_chars now originalName c
          (memOfMemTake (memOfMemTake h1))
      · exact sanitizeFileName_chars now originalName c (memOfMemDrop h2)
  · refine ⟨⟨(sanitizeFileName now originalName).data.take 140⟩, ".bin",
      ?_, ?_, ?_, ?_⟩
    · rw [buildUniqueAssetFilename, assetBase, assetExt, if_neg hext, if_neg hext]
    · simpa using List.length_take_le 140 _
    · rfl
    · intro c hc
      rcases List.mem_append.mp hc with h1 | h2
      · exact sanitizeFileName_chars now originalName c (memOfMemTake h1)
      · exact (by decide : ∀ c ∈ ".bin".data,
          isForbiddenFileChar c = false ∧ isJsWs c = false) c h2

/- ── C6: fetchThreadReplies retry & thread caching ────────────────── -/

/-- A raw Slack message as returned by the history API (the fields the
thread logic consumes; an absent `reply_count` is modelled as 0). -/
structure RawMessage where
  ts : String
  user : Option String
  text : String
  subtype : Option String
  thread_ts : Option String
  reply_count : Nat
deriving DecidableEq, Repr

/-- Outcome of one `conversations.replies` network attempt. -/
inductive FetchAttempt where
  | ok (messages : List RawMessage)
  | apiFail (errorCode : String)
  | netFail (message : String)
deriving DecidableEq

/-- JS `str.includes(sub)`. -/
def strIncludes (sub s : String) : Bool := decide (sub.data <:+: s.data)

/-- `fetchThreadReplies` (src/config.js 2311-2361) over an oracle giving
the outcome of each attempt (indexed by `retryCount`).  `data.ok: false`
with `ratelimited` retries in the try block (max 3 retries); any thrown
error whose message contains `ratelimited` retries in the catch block;
every other failure — including retry exhaustion — returns `[]`.  The
fuel is one more than the largest reachable retry count. -/
def fetchThreadRepliesGo (oracle : Nat → FetchAttempt) :
    Nat → Nat → List RawMessage
  | 0, _ => []
  | fuel + 1, retryCount =>
    match oracle retryCount with
    | .ok msgs => msgs
    | .apiFail e =>
      if e = "ratelimited" ∧ retryCount < 3 then
        fetchThreadRepliesGo oracle fuel (retryCount + 1)
      else if strIncludes "ratelimited"
          ("conversations.replies API failed: " ++ e) ∧ retryCount < 3 then
        fetchThreadRepliesGo oracle fuel (retryCount + 1)
      else []
    | .netFail m =>
      if strIncludes "ratelimited" m ∧ retryCount < 3 then
        fetchThreadRepliesGo oracle fuel (retryCount + 1)
      else []

/-- `fetchThreadReplies` entered with `retryCount = 0`. -/
def fetchThreadReplies (oracle : Nat → FetchAttempt) : List RawMessage :=
  fetchThreadRepliesGo oracle 4 0

/-- Whether the identity-scanning loop of `exportChannelViaAPI`
(src/config.js 1602-1634) fetches this message's thread:
`config.includeThreadReplies && msg.thread_ts && msg.reply_count > 0`. -/
def fetchesThread (includeThreadReplies : Bool) (m : RawMessage) : Bool :=
  includeThreadReplies && m.thread_ts.isSome && decide (m.reply_count > 0)

/-- The `conversations.replies` fetch log of one whole channel export, as
a list of the `thread_ts` arguments in call order.  The scanning loop
(src/config.js 1602-1634) fetches once per qualifying message and caches
the result under `msg.thread_ts`; the enrichment loop (1689-1706) only
reads `threadRepliesCache` and performs no fetch, so it contributes
nothing. -/
def threadFetchLog (includeThreadReplies : Bool) (msgs : List RawMessage) :
    List String :=
  (msgs.filter (fetchesThread includeThreadReplies)).map
    (fun m => m.thread_ts.getD "")

theorem threadFetchLog_count (includeThreadReplies : Bool) (ts : String) :
    ∀ msgs : List RawMessage,
      (threadFetchLog includeThreadReplies msgs).count ts =
        (msgs.filter (fun m => fetchesThread includeThreadReplies m &&
          (m.thread_ts.getD "" == ts))).length := by
  intro msgs
  induction msgs with
  | nil => rfl
  | cons m rest ih =>
    by_cases hq : fetchesThread includeThreadReplies m = true
    · by_cases hts : m.thread_ts.getD "" = ts
      · simp only [threadFetchLog, List.filter_cons, hq, if_true, List.map_cons,
          List.count_cons, hts, beq_self_eq_true, Bool.and_true,
          List.length_cons] at ih ⊢
        rw [ih]
      · simp only [threadFetchLog, List.filter_cons, hq, if_true, List.map_cons,
          List.count_cons] at ih ⊢
        have hb : (m.thread_ts.getD "" == ts) = false := by simp [hts]
        simp only [hb, Bool.and_false, Bool.false_eq_true, if_false]
        rw [ih]
        simp [hts]
    · simp only [threadFetchLog, List.filter_cons, hq, Bool.false_and,
        Bool.false_eq_true, if_false] at ih ⊢
      exact ih

/-- A parent message carrying a thread with one reply. -/
def c6Parent : RawMessage :=
  { ts := "1.000100", user := some "U1", text := "root", subtype := none,
    thread_ts := some "1.000100", reply_count := 1 }

/-- C6: the claim as stated is false on the code.  If the fetched history
contains two messages that both carry `thread_ts = "1.000100"` with a
positive `reply_count`, the scanning loop fetches that thread twice (it
never consults the cache before fetching), so the fetch is not performed
exactly once per `thread_ts`. -/
theorem c6_counterexample :
    (∃ m ∈ [c6Parent, c6Parent], fetchesThread true m = true ∧
      m.thread_ts = some "1.000100") ∧
    (threadFetchLog true [c6Parent, c6Parent]).count "1.000100" = 2 := by
  decide

/-- C6 (amended): `fetchThreadReplies` returns `[]` whenever no attempt
within the retry budget succeeds (errors never propagate), and one
channel export fetches a given `thread_ts` once per fetched message that
carries it with a positive reply count — hence exactly once when exactly
one such message exists — while the enrichment pass only consumes the
cache. -/
theorem c6_thread_retry_and_cache (oracle : Nat → FetchAttempt)
    (includeThreadReplies : Bool) (msgs : List RawMessage) (ts : String)
    (hfail : ∀ i, i ≤ 3 → ∀ msgs', oracle i ≠ .ok msgs')
    (huniq : (msgs.filter (fun m => fetchesThread includeThreadReplies m &&
      (m.thread_ts.getD "" == ts))).length = 1) :
    fetchThreadReplies oracle = [] ∧
    (threadFetchLog includeThreadReplies msgs).count ts = 1 := by
  constructor
  · have hgo : ∀ fuel rc, rc + fuel = 4 →
        fetchThreadRepliesGo oracle fuel rc = [] := by
      intro fuel
      induction fuel with
      | zero => intro rc _; rfl
      | succ f ih =>
        intro rc hrc
        cases horacle : oracle rc with
        | ok msgs' =>
          exact absurd horacle (hfail rc (by omega) msgs')
        | apiFail e =>
          simp only [fetchThreadRepliesGo, horacle]
          by_cases h1 : e = "ratelimited" ∧ rc < 3
          · rw [if_pos h1]
            exact ih (rc + 1) (by omega)
          · rw [if_neg h1]
            by_cases h2 : strIncludes "ratelimited"
                ("conversations.replies API failed: " ++ e) ∧ rc < 3
            · rw [if_pos h2]
              exact ih (rc + 1) (by omega)
            · rw [if_neg h2]
        | netFail m =>
          simp only [fetchThreadRepliesGo, horacle]
          by_cases h1 : strIncludes "ratelimited" m ∧ rc < 3
          · rw [if_pos h1]
            exact ih (rc + 1) (by omega)
          · rw [if_neg h1]
    exact hgo 4 0 rfl
  · rw [threadFetchLog_count, huniq]

/-- Witness for `c6_thread_retry_and_cache`: an oracle that is
rate-limited on every attempt, and a history with a single parent. -/
theorem c6_thread_retry_and_cache_witness :
    ((∀ i, i ≤ 3 → ∀ msgs', (fun _ => FetchAttempt.apiFail "ratelimited") i ≠
        FetchAttempt.ok msgs') ∧
      (([c6Parent].filter (fun m => fetchesThread true m &&
        (m.thread_ts.getD "" == "1.000100"))).length = 1)) ∧
    fetchThreadReplies (fun _ => FetchAttempt.apiFail "ratelimited") = [] ∧
    (threadFetchLog true [c6Parent]).count "1.000100" = 1 := by
  constructor
  · exact ⟨fun _ _ msgs' h => (by cases h), by decide⟩
  · exact c6_thread_retry_and_cache (fun _ => FetchAttempt.apiFail "ratelimited")
      true [c6Parent] "1.000100" (fun _ _ msgs' h => by cases h) (by decide)

/-! ### C2: per-channel timestamp persistence in the batch orchestrator
(src/popup.js 266-424, `exportSelected`). -/

/-- One character of the conversation-ID body class `[A-Z0-9]` under the
regex `i` flag. -/
def isIdBodyChar (c : Char) : Bool :=
  ('A' ≤ c && c ≤ 'Z') || ('a' ≤ c && c ≤ 'z') || ('0' ≤ c && c ≤ '9')

/-- `isSlackConversationId` (src/popup.js 790-792): the case-insensitive
test `/^[CDG][A-Z0-9]\x7b8,\x7d$/i` on the trimmed value. -/
def isSlackConversationId (value : String) : Bool :=
  match jsTrim value.data with
  | [] => false
  | c :: rest =>
    (asciiLower c = 'c' || asciiLower c = 'd' || asciiLower c = 'g') &&
    decide (8 ≤ rest.length) && rest.all isIdBodyChar

/-- A channel entry of the popup's `selected` list. -/
structure Channel where
  name : String
  channelId : String
deriving DecidableEq, Repr

/-- The fields of a `BATCH_EXPORT_CHANNEL` response the per-channel loop
branches on. -/
structure PopupChannelResponse where
  success : Bool
  messageCount : Nat
  markdown : String
  markdownSavedByContent : Bool
deriving DecidableEq, Repr

/-- Outcome of `chrome.tabs.sendMessage`: the promise rejects (caught by
the loop body's `catch`), or resolves to a possibly-undefined response. -/
inductive ChannelSendResult where
  | rejectedWith (msg : String)
  | responded (resp : Option PopupChannelResponse)
deriving DecidableEq, Repr

/-- Outcome of one `DOWNLOAD_FILE` attempt inside the retry loop:
a truthy successful response, a falsy or failed response, or a rejection
(caught inside the loop). -/
inductive DownloadAttempt where
  | ok
  | failed (err : String)
  | rejectedWith (msg : String)
deriving DecidableEq, Repr

/-- The download retry loop (src/popup.js 332-361): up to three attempts,
breaking on the first truthy success. -/
def downloadSucceeds (download : Nat → DownloadAttempt) : Bool :=
  match download 0 with
  | .ok => true
  | _ =>
    match download 1 with
    | .ok => true
    | _ =>
      match download 2 with
      | .ok => true
      | _ => false

/-- Ordered side effects of one iteration of the per-channel loop that
touch session/config state: the `channel_start` notification, the
`saveConfig(\x7b lastExportTimestamps \x7d)` persist, and the
`channel_done` notification with its status string. -/
inductive BatchEvent where
  | channelStart (channelId : String)
  | persistTimestamps (channelId : String)
  | channelDone (channelId : String) (status : String)
deriving DecidableEq, Repr

/-- One iteration of the per-channel loop of `exportSelected`
(src/popup.js 266-424), as the ordered list of `BatchEvent`s it emits.
Branches mirror the source: the invalid-ID guard `continue`s after only
`channel_start`; a rejected or falsy/unsuccessful response reaches the
error `channel_done`; on a successful response the markdown is saved
either by the content script or by the retry loop, a total download
failure `continue`s without persisting, and only the fully successful
path runs `saveConfig(\x7b lastExportTimestamps \x7d)` followed by the
success `channel_done`. -/
def perChannelTrace (channel : Channel) (send : ChannelSendResult)
    (download : Nat → DownloadAttempt) : List BatchEvent :=
  BatchEvent.channelStart channel.channelId ::
  (if isSlackConversationId channel.channelId then
    match send with
    | .rejectedWith _ => [BatchEvent.channelDone channel.channelId "error"]
    | .responded none => [BatchEvent.channelDone channel.channelId "error"]
    | .responded (some resp) =>
      if resp.success then
        if resp.markdownSavedByContent || downloadSucceeds download then
          [BatchEvent.persistTimestamps channel.channelId,
           BatchEvent.channelDone channel.channelId "success"]
        else []
      else [BatchEvent.channelDone channel.channelId "error"]
  else [])

/-- Whether the iteration reaches the success path: valid conversation
ID, truthy successful response, and the markdown saved (by the content
script or by a download attempt). -/
def channelExportSucceeded (channel : Channel) (send : ChannelSendResult)
    (download : Nat → DownloadAttempt) : Bool :=
  isSlackConversationId channel.channelId &&
  match send with
  | .responded (some resp) =>
    resp.success && (resp.markdownSavedByContent || downloadSucceeds download)
  | _ => false

/-- C2: the claim as stated is false on the code.  For a failed channel
(here: a syntactically valid conversation ID whose `BATCH_EXPORT_CHANNEL`
response reports `success: false`) the iteration emits the error
`channel_done` and never persists `lastExportTimestamps`; the persist at
src/popup.js 380-381 sits inside the success branch only. -/
theorem c2_counterexample :
    isSlackConversationId "C123456789" = true ∧
    BatchEvent.channelDone "C123456789" "error" ∈
      perChannelTrace ⟨"general", "C123456789"⟩
        (.responded (some ⟨false, 0, "", false⟩)) (fun _ => .ok) ∧
    BatchEvent.persistTimestamps "C123456789" ∉
      perChannelTrace ⟨"general", "C123456789"⟩
        (.responded (some ⟨false, 0, "", false⟩)) (fun _ => .ok) := by
  decide

/-- C2 (amended): `lastExportTimestamps` is persisted during a channel
iteration exactly when that channel's export fully succeeds, and on the
success path the iteration is exactly `channel_start`, the persist, then
the success `channel_done` — so the timestamp is durable before the next
channel starts, but failed channels (invalid ID, rejected send, falsy or
unsuccessful response, exhausted download retries) persist nothing. -/
theorem c2_timestamp_persist (channel : Channel) (send : ChannelSendResult)
    (download : Nat → DownloadAttempt) :
    (BatchEvent.persistTimestamps channel.channelId ∈
        perChannelTrace channel send download ↔
      channelExportSucceeded channel send download = true) ∧
    (channelExportSucceeded channel send download = true →
      perChannelTrace channel send download =
        [BatchEvent.channelStart channel.channelId,
         BatchEvent.persistTimestamps channel.channelId,
         BatchEvent.channelDone channel.channelId "success"]) := by
  by_cases hid : isSlackConversationId channel.channelId = true
  · cases send with
    | rejectedWith m =>
      simp [perChannelTrace, channelExportSucceeded, hid]
    | responded o =>
      cases o with
      | none => simp [perChannelTrace, channelExportSucceeded, hid]
      | some resp =>
        by_cases hs : resp.success = true
        · by_cases hsave : (resp.markdownSavedByContent ||
              downloadSucceeds download) = true
          · simp [perChannelTrace, channelExportSucceeded, hid, hs, hsave]
          · simp [perChannelTrace, channelExportSucceeded, hid, hs, hsave]
        · simp [perChannelTrace, channelExportSucceeded, hid, hs]
  · simp [perChannelTrace, channelExportSucceeded, hid]

/-- Witness for `c2_timestamp_persist`: a channel whose response succeeds
and whose first download attempt succeeds. -/
theorem c2_timestamp_persist_witness :
    channelExportSucceeded ⟨"general", "C123456789"⟩
        (.responded (some ⟨true, 5, "doc", false⟩)) (fun _ => .ok) = true ∧
    perChannelTrace ⟨"general", "C123456789"⟩
        (.responded (some ⟨true, 5, "doc", false⟩)) (fun _ => .ok) =
      [BatchEvent.channelStart "C123456789",
       BatchEvent.persistTimestamps "C123456789",
       BatchEvent.channelDone "C123456789" "success"] :=
  ⟨by decide,
    (c2_timestamp_persist ⟨"general", "C123456789"⟩
      (.responded (some ⟨true, 5, "doc", false⟩)) (fun _ => .ok)).2
      (by decide)⟩

/-! ### C4: `updateFileReferencesInMessages` (src/config.js 1497-1560)
and the download map built by `downloadFiles` (src/config.js 1314-1373). -/

/-- Split off the maximal leading run of characters other than `]`
(what the greedy class `[^\]]` consumes before the required `]`). -/
def takeNonRB : List Char → List Char × List Char
  | [] => ([], [])
  | c :: cs =>
    if c = ']' then ([], c :: cs)
    else (c :: (takeNonRB cs).1, (takeNonRB cs).2)

theorem takeNonRB_append : ∀ l : List Char,
    (takeNonRB l).1 ++ (takeNonRB l).2 = l := by
  intro l
  induction l with
  | nil => rfl
  | cons c cs ih =>
    by_cases h : c = ']'
    · simp [takeNonRB, h]
    · simp [takeNonRB, h, ih]

/-- Head match of the `linkPattern` regex
(src/config.js 1525): a bracket `[`, a nonempty greedy run of non-`]`
characters (the `$1` capture), then literally the text made of bracket,
parenthesis, the URL and the closing parenthesis.  Returns the JS
replacement text with `rel` substituted for the URL, and the unconsumed
suffix. -/
def matchLinkAt (url rel : List Char) : List Char → Option (List Char × List Char)
  | [] => none
  | a :: cs =>
    if a = '[' ∧ (takeNonRB cs).1 ≠ [] ∧
        List.isPrefixOf ([']', '('] ++ url ++ [')']) (takeNonRB cs).2 then
      some ('[' :: (takeNonRB cs).1 ++ ']' :: '(' :: rel ++ [')'],
        (takeNonRB cs).2.drop (url.length + 3))
    else none

/-- Head match of the `imagePattern` regex (src/config.js 1530):
like `matchLinkAt` but preceded by `!` and with a possibly empty
capture. -/
def matchImageAt (url rel : List Char) : List Char → Option (List Char × List Char)
  | a :: b :: cs =>
    if a = '!' ∧ b = '[' ∧
        List.isPrefixOf ([']', '('] ++ url ++ [')']) (takeNonRB cs).2 then
      some ('!' :: '[' :: (takeNonRB cs).1 ++ ']' :: '(' :: rel ++ [')'],
        (takeNonRB cs).2.drop (url.length + 3))
    else none
  | _ => none

/-- Global left-to-right regex replacement driver: at each position,
emit the matcher's replacement and continue after the match, or keep the
character and move on.  `fuel` bounds the number of steps; every matcher
used here consumes at least one character, so `l.length` fuel scans all
of `l`. -/
def scanRepFuel (m : List Char → Option (List Char × List Char)) :
    Nat → List Char → List Char
  | 0, l => l
  | _ + 1, [] => []
  | fuel + 1, c :: cs =>
    match m (c :: cs) with
    | some p => p.1 ++ scanRepFuel m fuel p.2
    | none => c :: scanRepFuel m fuel cs

/-- A scan whose matcher fires on no suffix of `l` is the identity. -/
theorem scanRepFuel_id (m : List Char → Option (List Char × List Char)) :
    ∀ fuel l, (∀ s, s <:+ l → m s = none) → scanRepFuel m fuel l = l := by
  intro fuel
  induction fuel with
  | zero => intro l _; rfl
  | succ f ih =>
    intro l h
    cases l with
    | nil => rfl
    | cons c cs =>
      have h0 : m (c :: cs) = none := h _ (List.suffix_refl _)
      simp only [scanRepFuel, h0]
      exact congrArg (c :: ·)
        (ih cs (fun s hs => h s (hs.trans (List.suffix_cons c cs))))

/-- A fired link match exhibits the URL inside the scanned suffix. -/
theorem matchLinkAt_hit {url rel s : List Char}
    {p : List Char × List Char} (h : matchLinkAt url rel s = some p) :
    url <:+: s := by
  cases s with
  | nil => simp [matchLinkAt] at h
  | cons a cs =>
    by_cases hc : a = '[' ∧ (takeNonRB cs).1 ≠ [] ∧
        List.isPrefixOf ([']', '('] ++ url ++ [')']) (takeNonRB cs).2
    · obtain ⟨t, ht⟩ := List.isPrefixOf_iff_prefix.mp hc.2.2
      refine ⟨a :: (takeNonRB cs).1 ++ [']', '('], ')' :: t, ?_⟩
      have hsplit := takeNonRB_append cs
      rw [← ht] at hsplit
      simp only [List.cons_append, List.append_assoc, List.cons_append,
        List.nil_append] at hsplit ⊢
      rw [hsplit]
    · rw [matchLinkAt, if_neg hc] at h
      cases h

/-- A fired image match exhibits the URL inside the scanned suffix. -/
theorem matchImageAt_hit {url rel s : List Char}
    {p : List Char × List Char} (h : matchImageAt url rel s = some p) :
    url <:+: s := by
  cases s with
  | nil => simp [matchImageAt] at h
  | cons a s' =>
    cases s' with
    | nil => simp [matchImageAt] at h
    | cons b cs =>
      by_cases hc : a = '!' ∧ b = '[' ∧
          List.isPrefixOf ([']', '('] ++ url ++ [')']) (takeNonRB cs).2
      · obtain ⟨t, ht⟩ := List.isPrefixOf_iff_prefix.mp hc.2.2
        refine ⟨a :: b :: (takeNonRB cs).1 ++ [']', '('], ')' :: t, ?_⟩
        have hsplit := takeNonRB_append cs
        rw [← ht] at hsplit
        simp only [List.cons_append, List.append_assoc, List.cons_append,
          List.nil_append] at hsplit ⊢
        rw [hsplit]
      · rw [matchImageAt, if_neg hc] at h
        cases h

/-- The `linkPattern` replacement pass
(`updatedContent.replace(linkPattern, ...)`, src/config.js 1525-1526). -/
def linkPass (url rel l : List Char) : List Char :=
  scanRepFuel (matchLinkAt url rel) l.length l

/-- The `imagePattern` replacement pass (src/config.js 1530-1531). -/
def imagePass (url rel l : List Char) : List Char :=
  scanRepFuel (matchImageAt url rel) l.length l

/-- When the URL occurs nowhere, the link pass changes nothing. -/
theorem linkPass_id (url rel l : List Char) (h : ¬ url <:+: l) :
    linkPass url rel l = l :=
  scanRepFuel_id _ _ l (fun s hs => by
    cases hm : matchLinkAt url rel s with
    | none => rfl
    | some p =>
      exact absurd ((matchLinkAt_hit hm).trans hs.isInfix) h)

/-- When the URL occurs nowhere, the image pass changes nothing. -/
theorem imagePass_id (url rel l : List Char) (h : ¬ url <:+: l) :
    imagePass url rel l = l :=
  scanRepFuel_id _ _ l (fun s hs => by
    cases hm : matchImageAt url rel s with
    | none => rfl
    | some p =>
      exact absurd ((matchImageAt_hit hm).trans hs.isInfix) h)

/-- One value of the `fileMap` built by `downloadFiles`
(src/config.js 1350-1354 and 1362-1367): a local path, the original
name, and the error flag (absent on success entries, modelled `false`). -/
structure FileMapInfo where
  localPath : String
  localName : String
  error : Bool
deriving DecidableEq, Repr

/-- JS `fileMap[file.url]` lookup on the map modelled as an association
list keyed by URL (URLs are unique in the map: `downloadFiles`
deduplicates by URL before inserting). -/
def lookupFileMap (fileMap : List (String × FileMapInfo)) (url : String) :
    Option FileMapInfo :=
  (fileMap.find? (fun e => e.1 == url)).map (fun e => e.2)

/-- `stripBaseDirectory` (src/config.js 1499-1507). -/
def stripBaseDirectory (baseDirectory path : String) : String :=
  if path = "" then path
  else if List.isPrefixOf (baseDirectory ++ "/").data path.data then
    ⟨path.data.drop (baseDirectory ++ "/").data.length⟩
  else path

/-- The per-file body of the message-content loop
(src/config.js 1514-1534): when the map entry exists with a truthy
`localPath` and no error flag, globally replace the URL with the
stripped relative path, then run the link pass, then — for image files —
the image pass.  The JS replacement string's dollar escapes are modelled
literally; theorems below therefore restrict to dollar-free relative
paths, where both semantics agree. -/
def updateContentForFile (baseDirectory : String)
    (fileMap : List (String × FileMapInfo)) (content : List Char)
    (file : FileRef) : List Char :=
  match lookupFileMap fileMap file.url with
  | none => content
  | some info =>
    if info.localPath ≠ "" ∧ info.error = false then
      if file.image then
        imagePass file.url.data
          (stripBaseDirectory baseDirectory info.localPath).data
          (linkPass file.url.data
            (stripBaseDirectory baseDirectory info.localPath).data
            (replaceAllAux file.url.data
              (stripBaseDirectory baseDirectory info.localPath).data content))
      else
        linkPass file.url.data
          (stripBaseDirectory baseDirectory info.localPath).data
          (replaceAllAux file.url.data
            (stripBaseDirectory baseDirectory info.localPath).data content)
    else content

/-- The message-content part of `updateFileReferencesInMessages`
(src/config.js 1509-1537): fold the per-file rewrite over
`message.messageFiles` when that list is nonempty. -/
def updateMessageContent (baseDirectory : String)
    (fileMap : List (String × FileMapInfo)) (content : String)
    (messageFiles : List FileRef) : String :=
  if messageFiles = [] then content
  else ⟨messageFiles.foldl (updateContentForFile baseDirectory fileMap)
    content.data⟩

/-- The per-file body of the thread-reply loop
(src/config.js 1545-1552): replies get only the plain URL replacement,
no link or image pass. -/
def updateReplyForFile (baseDirectory : String)
    (fileMap : List (String × FileMapInfo)) (content : List Char)
    (file : FileRef) : List Char :=
  match lookupFileMap fileMap file.url with
  | none => content
  | some info =>
    if info.localPath ≠ "" ∧ info.error = false then
      replaceAllAux file.url.data
        (stripBaseDirectory baseDirectory info.localPath).data content
    else content

/-- The thread-reply part of `updateFileReferencesInMessages`
(src/config.js 1540-1557). -/
def updateReplyContent (baseDirectory : String)
    (fileMap : List (String × FileMapInfo)) (content : String)
    (messageFiles : List FileRef) : String :=
  if messageFiles = [] then content
  else ⟨messageFiles.foldl (updateReplyForFile baseDirectory fileMap)
    content.data⟩

/-- The `filesDir` of `downloadFiles` (src/config.js 1316). -/
def filesDirFor (downloadDirectory channelName : String) : String :=
  (if downloadDirectory = "" then "slack-exports" else downloadDirectory) ++
    "/" ++ channelName ++ "_files"

/-- The success entry `downloadFiles` stores for a downloaded file
(src/config.js 1348-1354 with `downloadSingleFile`'s
`filesDir/sanitizedName` local path, src/config.js 1390-1391). -/
def mkDownloadSuccessEntry (now : Nat)
    (downloadDirectory channelName exportPrefix : String) (index : Nat)
    (file : FileRef) : String × FileMapInfo :=
  (file.url,
   { localPath := filesDirFor downloadDirectory channelName ++ "/" ++
       buildUniqueAssetFilename now file.name exportPrefix index
     localName := file.name
     error := false })

/-- The fallback entry stored when a download throws
(src/config.js 1362-1367). -/
def mkDownloadErrorEntry (file : FileRef) : String × FileMapInfo :=
  (file.url,
   { localPath := file.url, localName := file.name, error := true })

/-- The file of the C4 counterexample. -/
def c4File : FileRef :=
  { name := "a.bin", url := "files/e-0001-a.bin", image := false }

/-- Its successful download-map entry, exactly as `downloadFiles` builds
it for channel `x`, export prefix `e`, file index 0. -/
def c4FileMap : List (String × FileMapInfo) :=
  [mkDownloadSuccessEntry 0 "slack-exports" "x" "e" 0 c4File]

/-- C4: the claim as stated is false on the code.  The download-map
entry for `files/e-0001-a.bin` is successful (error-free, with local
path `slack-exports/x_files/e-0001-a.bin`), yet after the rewrite the
message content `x_files/e-0001-a.bin` still contains the URL verbatim:
the replacement text itself embeds the URL, because the sanitized asset
name and the `_files` directory suffix reproduce it. -/
theorem c4_counterexample :
    lookupFileMap c4FileMap c4File.url =
      some { localPath := "slack-exports/x_files/e-0001-a.bin",
             localName := "a.bin", error := false } ∧
    c4File.url.data <:+:
      (updateMessageContent "slack-exports" c4FileMap "files/e-0001-a.bin"
        [c4File]).data := by
  decide

/-- C4 (amended): for a message with a single file reference and its
download-map entry, when the entry is successful and the stripped
relative path is nonempty, dollar-free and uses no character of the
(nonempty) URL, the URL is absent from the rewritten message and reply
content; and an error-flagged entry leaves both untouched. -/
theorem c4_url_rewrite (baseDirectory content : String) (file : FileRef)
    (info : FileMapInfo)
    (hu : file.url.data ≠ [])
    (hrel : (stripBaseDirectory baseDirectory info.localPath).data ≠ [])
    (hdisj : ∀ c ∈ (stripBaseDirectory baseDirectory info.localPath).data,
      c ∉ file.url.data)
    (_hdollar : Char.ofNat 36 ∉
      (stripBaseDirectory baseDirectory info.localPath).data) :
    (info.error = false → info.localPath ≠ "" →
      ¬ file.url.data <:+:
        (updateMessageContent baseDirectory [(file.url, info)] content
          [file]).data ∧
      ¬ file.url.data <:+:
        (updateReplyContent baseDirectory [(file.url, info)] content
          [file]).data) ∧
    (info.error = true →
      updateMessageContent baseDirectory [(file.url, info)] content [file]
        = content ∧
      updateReplyContent baseDirectory [(file.url, info)] content [file]
        = content) := by
  have hlook : lookupFileMap [(file.url, info)] file.url = some info := by
    simp [lookupFileMap]
  have hne : ¬ ([file] = []) := by simp
  have hnoU := noOccAfterReplace hu hrel hdisj content.data
  constructor
  · intro herr hlp
    have hcond : info.localPath ≠ "" ∧ info.error = false := ⟨hlp, herr⟩
    constructor
    · rw [updateMessageContent, if_neg hne]
      show ¬ file.url.data <:+:
        List.foldl (updateContentForFile baseDirectory [(file.url, info)])
          content.data [file]
      rw [List.foldl_cons, List.foldl_nil]
      simp only [updateContentForFile, hlook]
      rw [if_pos hcond]
      by_cases himg : file.image = true
      · rw [if_pos himg, linkPass_id _ _ _ hnoU, imagePass_id _ _ _ hnoU]
        exact hnoU
      · rw [if_neg himg, linkPass_id _ _ _ hnoU]
        exact hnoU
    · rw [updateReplyContent, if_neg hne]
      show ¬ file.url.data <:+:
        List.foldl (updateReplyForFile baseDirectory [(file.url, info)])
          content.data [file]
      rw [List.foldl_cons, List.foldl_nil]
      simp only [updateReplyForFile, hlook]
      rw [if_pos hcond]
      exact hnoU
  · intro herr
    have hcond : ¬ (info.localPath ≠ "" ∧ info.error = false) := by
      simp [herr]
    constructor
    · rw [updateMessageContent, if_neg hne]
      show (⟨List.foldl (updateContentForFile baseDirectory
        [(file.url, info)]) content.data [file]⟩ : String) = content
      rw [List.foldl_cons]
      simp only [updateContentForFile, hlook]
      rw [if_neg hcond, List.foldl_nil]
    · rw [updateReplyContent, if_neg hne]
      show (⟨List.foldl (updateReplyForFile baseDirectory
        [(file.url, info)]) content.data [file]⟩ : String) = content
      rw [List.foldl_cons]
      simp only [updateReplyForFile, hlook]
      rw [if_neg hcond, List.foldl_nil]

/-- Witness for `c4_url_rewrite`: URL `u-1`, relative path `XP` (from
local path `slack-exports/XP`), content carrying the URL both verbatim
and in link syntax. -/
theorem c4_url_rewrite_witness :
    ¬ "u-1".data <:+:
      (updateMessageContent "slack-exports"
        [("u-1", ⟨"slack-exports/XP", "n", false⟩)] "see u-1 and [a](u-1)"
        [⟨"n", "u-1", true⟩]).data ∧
    ¬ "u-1".data <:+:
      (updateReplyContent "slack-exports"
        [("u-1", ⟨"slack-exports/XP", "n", false⟩)] "see u-1 and [a](u-1)"
        [⟨"n", "u-1", true⟩]).data :=
  (c4_url_rewrite "slack-exports" "see u-1 and [a](u-1)"
    ⟨"n", "u-1", true⟩ ⟨"slack-exports/XP", "n", false⟩
    (by decide) (by decide) (by decide) (by decide)).1 rfl (by decide)

/-! ### C5: `inlineMarkdownToHtml` and `normalizeHref`
(src/config.js 1111-1148) with `escapeHtml` (src/config.js 1155-1162). -/

theorem char_le_iff {a b : Char} : a ≤ b ↔ a.toNat ≤ b.toNat := by
  rw [Char.le_def]
  exact Iff.rfl

theorem char_toNat_ofNat {n : Nat} (h : n < 55296) :
    (Char.ofNat n).toNat = n := by
  simp only [Char.ofNat, dif_pos (Or.inl h), Char.ofNatAux, Char.toNat]
  simp [UInt32.ofNat', UInt32.toNat]

/-- `asciiLower` moves only uppercase letters, so any character below
code point 97 is its own unique preimage. -/
theorem asciiLower_fix {c t : Char} (ht : t.toNat < 97)
    (h : asciiLower c = t) : c = t := by
  rw [asciiLower] at h
  split_ifs at h with hAZ
  · exfalso
    have h1 : 65 ≤ c.toNat := char_le_iff.mp hAZ.1
    have h2 : c.toNat ≤ 90 := char_le_iff.mp hAZ.2
    have h3 : (Char.ofNat (c.toNat + 32)).toNat = c.toNat + 32 :=
      char_toNat_ofNat (by omega)
    rw [h] at h3
    omega
  · exact h

/-- One letter of the scheme class `[A-Za-z]`. -/
def isAsciiAlpha (c : Char) : Bool :=
  ('A' ≤ c && c ≤ 'Z') || ('a' ≤ c && c ≤ 'z')

/-- `escapeHtml` (src/config.js 1155-1162): the five chained global
replacements, ampersand first. -/
def escapeHtml (text : String) : String :=
  jsReplaceAll ⟨[Char.ofNat 39]⟩ "&#39;"
    (jsReplaceAll "\"" "&quot;"
      (jsReplaceAll ">" "&gt;"
        (jsReplaceAll "<" "&lt;"
          (jsReplaceAll "&" "&amp;" text))))

theorem singleton_infix_iff {a : Char} {l : List Char} :
    [a] <:+: l ↔ a ∈ l := by
  constructor
  · rintro ⟨s, t, rfl⟩
    simp
  · intro h
    obtain ⟨s, t, rfl⟩ := List.append_of_mem h
    exact ⟨s, t, by simp⟩

theorem replaceAllFuel_id {u : List Char} (r : List Char) (hu : u ≠ []) :
    ∀ fuel l, ¬ u <:+: l → replaceAllFuel u r fuel l = l := by
  intro fuel
  induction fuel with
  | zero =>
    intro l _
    cases l <;> simp [replaceAllFuel, hu]
  | succ f ih =>
    intro l hni
    cases l with
    | nil => simp [replaceAllFuel, hu]
    | cons c cs =>
      rw [replaceAllFuel]
      have hm : ¬ (u ≠ [] ∧ List.isPrefixOf u (c :: cs)) := by
        rintro ⟨-, hp⟩
        exact hni (List.isPrefixOf_iff_prefix.mp hp).isInfix
      rw [if_neg hm, if_neg hu]
      exact congrArg (c :: ·) (ih cs (fun hcs => hni (List.infix_cons hcs)))

theorem replaceAllAux_id {u : List Char} (r : List Char) (hu : u ≠ [])
    {l : List Char} (h : ¬ u <:+: l) : replaceAllAux u r l = l :=
  replaceAllFuel_id r hu l.length l h

theorem replaceAll_single_id {a : Char} (r l : List Char) (ha : a ∉ l) :
    replaceAllAux [a] r l = l :=
  replaceAllAux_id r (by simp)
    (fun hin => ha (singleton_infix_iff.mp hin))

/-- `escapeHtml` is the identity on text containing none of the five
escaped characters. -/
theorem escapeHtml_id (s : String)
    (h : ∀ c ∈ s.data,
      c ≠ '&' ∧ c ≠ '<' ∧ c ≠ '>' ∧ c ≠ '"' ∧ c ≠ Char.ofNat 39) :
    escapeHtml s = s := by
  obtain ⟨l⟩ := s
  have hmem : ∀ a : Char,
      (a = '&' ∨ a = '<' ∨ a = '>' ∨ a = '"' ∨ a = Char.ofNat 39) →
      a ∉ l := by
    rintro a hcase hm
    have := h a hm
    rcases hcase with rfl | rfl | rfl | rfl | rfl
    · exact this.1 rfl
    · exact this.2.1 rfl
    · exact this.2.2.1 rfl
    · exact this.2.2.2.1 rfl
    · exact this.2.2.2.2 rfl
  have e1 : replaceAllAux ['&'] "&amp;".data l = l :=
    replaceAll_single_id _ _ (hmem '&' (by simp))
  have e2 : replaceAllAux ['<'] "&lt;".data l = l :=
    replaceAll_single_id _ _ (hmem '<' (by simp))
  have e3 : replaceAllAux ['>'] "&gt;".data l = l :=
    replaceAll_single_id _ _ (hmem '>' (by simp))
  have e4 : replaceAllAux ['"'] "&quot;".data l = l :=
    replaceAll_single_id _ _ (hmem '"' (by simp))
  have e5 : replaceAllAux [Char.ofNat 39] "&#39;".data l = l :=
    replaceAll_single_id _ _ (hmem (Char.ofNat 39) (by simp))
  show (⟨replaceAllAux [Char.ofNat 39] "&#39;".data
    (replaceAllAux ['"'] "&quot;".data
      (replaceAllAux ['>'] "&gt;".data
        (replaceAllAux ['<'] "&lt;".data
          (replaceAllAux ['&'] "&amp;".data l))))⟩ : String) = ⟨l⟩
  rw [e1, e2, e3, e4, e5]

/-- One character of the href capture class `[^)\s]`. -/
def isHrefChar (c : Char) : Bool := decide (c ≠ ')') && !isJsWs c

/-- One character of the bare-relative first class `[A-Za-z0-9._-]`. -/
def isBare1 (c : Char) : Bool :=
  isAsciiAlpha c || ('0' ≤ c && c ≤ '9') || c = '.' || c = '_' || c = '-'

/-- One character of the bare-relative second class `[A-Za-z0-9._%\-\/]`. -/
def isBare2 (c : Char) : Bool := isBare1 c || c = '%' || c = '/'

/-- The whole-string test `/^[A-Za-z0-9._-]+\/[A-Za-z0-9._%\-\/]+$/`
(src/config.js 1145): a nonempty first-class run, the first slash, then
a nonempty second-class remainder. -/
def bareRelTest (l : List Char) : Bool :=
  decide (l.takeWhile (fun c => c ≠ '/') ≠ []) &&
  (l.takeWhile (fun c => c ≠ '/')).all isBare1 &&
  decide ((l.dropWhile (fun c => c ≠ '/')).tail ≠ []) &&
  ((l.dropWhile (fun c => c ≠ '/')).tail).all isBare2

/-- The prefix test `/^(https?:\/\/|mailto:|#|\/|\.\.?\/)/i`
(src/config.js 1144), expanded over the case-insensitive alternation. -/
def allowedPrefixL (l : List Char) : Bool :=
  List.isPrefixOf "http://".data (l.map asciiLower) ||
  List.isPrefixOf "https://".data (l.map asciiLower) ||
  List.isPrefixOf "mailto:".data (l.map asciiLower) ||
  List.isPrefixOf "#".data (l.map asciiLower) ||
  List.isPrefixOf "/".data (l.map asciiLower) ||
  List.isPrefixOf "./".data (l.map asciiLower) ||
  List.isPrefixOf "../".data (l.map asciiLower)

/-- `normalizeHref` (src/config.js 1138-1148). -/
def normalizeHref (href : String) : String :=
  if jsTrim href.data = [] then ""
  else if allowedPrefixL (jsTrim href.data) ||
      bareRelTest (jsTrim href.data) then ⟨jsTrim href.data⟩
  else ""

/-- JS line terminators (what the dot does not match). -/
def isLineTerm (c : Char) : Bool :=
  c = Char.ofNat 10 || c = Char.ofNat 13 ||
  c = Char.ofNat 0x2028 || c = Char.ofNat 0x2029

/-- Lazy `(.+?)` up to the literal `stop`: the shortest nonempty run of
non-line-terminator characters followed by `stop`; returns the run and
the text after `stop`. -/
def lazyUntil (stop : List Char) (bad : Char → Bool) :
    List Char → Option (List Char × List Char)
  | [] => none
  | c :: cs =>
    if bad c then none
    else if List.isPrefixOf stop cs then some ([c], cs.drop stop.length)
    else
      match lazyUntil stop bad cs with
      | some p => some (c :: p.1, p.2)
      | none => none

/-- The replacement the link callback returns (src/config.js 1120-1126). -/
def linkEmit (label hrefRaw : List Char) : List Char :=
  if normalizeHref ⟨hrefRaw⟩ = "" then label
  else
    "<a href=\"".data ++ (normalizeHref ⟨hrefRaw⟩).data ++
      "\" target=\"_blank\" rel=\"noopener noreferrer\">".data ++ label ++
      "</a>".data

/-- The replacement the image callback returns (src/config.js 1113-1119):
the untouched match when the href is rejected, else the img tag. -/
def imgEmit (alt hrefRaw : List Char) : List Char :=
  if normalizeHref ⟨hrefRaw⟩ = "" then
    '!' :: '[' :: (alt ++ ']' :: ('(' :: (hrefRaw ++ [')'])))
  else
    "<img src=\"".data ++ (normalizeHref ⟨hrefRaw⟩).data ++
      "\" alt=\"".data ++ alt ++ "\" loading=\"lazy\">".data

/-- Head match of `/\[([^\]]+)\]\(([^)\s]+)\)/` (src/config.js 1120). -/
def matchLinkMd : List Char → Option (List Char × List Char)
  | [] => none
  | a :: cs =>
    if a = '[' ∧ (takeNonRB cs).1 ≠ [] ∧
        List.isPrefixOf [']', '('] (takeNonRB cs).2 ∧
        ((takeNonRB cs).2.drop 2).takeWhile isHrefChar ≠ [] ∧
        (((takeNonRB cs).2.drop 2).dropWhile isHrefChar).head? =
          some ')' then
      some
        (linkEmit (takeNonRB cs).1
          (((takeNonRB cs).2.drop 2).takeWhile isHrefChar),
         (((takeNonRB cs).2.drop 2).dropWhile isHrefChar).tail)
    else none

/-- Head match of `/!\[([^\]]*)\]\(([^)\s]+)\)/` (src/config.js 1113). -/
def matchImgMd : List Char → Option (List Char × List Char)
  | a :: b :: cs =>
    if a = '!' ∧ b = '[' ∧
        List.isPrefixOf [']', '('] (takeNonRB cs).2 ∧
        ((takeNonRB cs).2.drop 2).takeWhile isHrefChar ≠ [] ∧
        (((takeNonRB cs).2.drop 2).dropWhile isHrefChar).head? =
          some ')' then
      some
        (imgEmit (takeNonRB cs).1
          (((takeNonRB cs).2.drop 2).takeWhile isHrefChar),
         (((takeNonRB cs).2.drop 2).dropWhile isHrefChar).tail)
    else none
  | _ => none

/-- Head match of `/\*\*(.+?)\*\*/` (src/config.js 1127). -/
def matchStrong (s : List Char) : Option (List Char × List Char) :=
  match s with
  | a :: b :: cs =>
    if a = '*' ∧ b = '*' then
      match lazyUntil ['*', '*'] isLineTerm cs with
      | some p => some ("<strong>".data ++ p.1 ++ "</strong>".data, p.2)
      | none => none
    else none
  | _ => none

/-- Head match of `/\*(.+?)\*/` (src/config.js 1128). -/
def matchEm (s : List Char) : Option (List Char × List Char) :=
  match s with
  | a :: cs =>
    if a = '*' then
      match lazyUntil ['*'] isLineTerm cs with
      | some p => some ("<em>".data ++ p.1 ++ "</em>".data, p.2)
      | none => none
    else none
  | [] => none

/-- Head match of the backtick code regex (src/config.js 1129). -/
def matchCode (s : List Char) : Option (List Char × List Char) :=
  match s with
  | a :: cs =>
    if a = bq then
      match lazyUntil [bq] isLineTerm cs with
      | some p => some ("<code>".data ++ p.1 ++ "</code>".data, p.2)
      | none => none
    else none
  | [] => none

def imgPassMd (l : List Char) : List Char :=
  scanRepFuel matchImgMd l.length l

def linkPassMd (l : List Char) : List Char :=
  scanRepFuel matchLinkMd l.length l

def strongPass (l : List Char) : List Char :=
  scanRepFuel matchStrong l.length l

def emPass (l : List Char) : List Char :=
  scanRepFuel matchEm l.length l

def codePass (l : List Char) : List Char :=
  scanRepFuel matchCode l.length l

/-- `inlineMarkdownToHtml` (src/config.js 1111-1131): escape, then the
image, link, strong, em and code passes in source order. -/
def inlineMarkdownToHtml (text : String) : String :=
  ⟨codePass (emPass (strongPass (linkPassMd (imgPassMd
    (escapeHtml text).data))))⟩

theorem scanRepFuel_nil (m : List Char → Option (List Char × List Char)) :
    ∀ fuel, scanRepFuel m fuel [] = [] := by
  intro fuel
  cases fuel <;> rfl

/-- A pass whose matcher fires only on a given head character is the
identity on lists not containing it. -/
theorem passId (m : List Char → Option (List Char × List Char)) (c0 : Char)
    (hnil : m [] = none)
    (hm : ∀ s, s.head? ≠ some c0 → m s = none)
    (fuel : Nat) (l : List Char) (h : c0 ∉ l) :
    scanRepFuel m fuel l = l :=
  scanRepFuel_id m fuel l (fun s hs => by
    cases s with
    | nil => exact hnil
    | cons c cs =>
      apply hm
      intro hh
      have : c = c0 := by
        simpa using hh
      exact h (this ▸ hs.subset (List.mem_cons_self c cs)))

theorem matchImgMd_none {s : List Char} (h : s.head? ≠ some '!') :
    matchImgMd s = none := by
  match s with
  | [] => rfl
  | [a] => rfl
  | a :: b :: cs =>
    rw [matchImgMd, if_neg]
    rintro ⟨rfl, -⟩
    exact h rfl

theorem matchLinkMd_none {s : List Char} (h : s.head? ≠ some '[') :
    matchLinkMd s = none := by
  match s with
  | [] => rfl
  | a :: cs =>
    rw [matchLinkMd, if_neg]
    rintro ⟨rfl, -⟩
    exact h rfl

theorem matchStrong_none {s : List Char} (h : s.head? ≠ some '*') :
    matchStrong s = none := by
  match s with
  | [] => rfl
  | [a] => rfl
  | a :: b :: cs =>
    rw [matchStrong]
    rw [if_neg]
    rintro ⟨rfl, -⟩
    exact h rfl

theorem matchEm_none {s : List Char} (h : s.head? ≠ some '*') :
    matchEm s = none := by
  match s with
  | [] => rfl
  | a :: cs =>
    rw [matchEm]
    rw [if_neg]
    intro hc
    exact h (by simp [hc])

theorem matchCode_none {s : List Char} (h : s.head? ≠ some bq) :
    matchCode s = none := by
  match s with
  | [] => rfl
  | a :: cs =>
    rw [matchCode]
    rw [if_neg]
    intro hc
    exact h (by simp [hc])

/-- Generic split of `takeWhile`/`dropWhile` around the first failing
character. -/
theorem takeWhile_split (f : Char → Bool) :
    ∀ (p : List Char) (d : Char) (q : List Char),
    (∀ c ∈ p, f c = true) → f d = false →
    (p ++ d :: q).takeWhile f = p ∧ (p ++ d :: q).dropWhile f = d :: q := by
  intro p
  induction p with
  | nil =>
    intro d q _ hd
    simp [List.takeWhile_cons, List.dropWhile_cons, hd]
  | cons c p' ih =>
    intro d q hp hd
    have hc : f c = true := hp c (by simp)
    have := ih d q (fun x hx => hp x (by simp [hx])) hd
    simp [List.takeWhile_cons, List.dropWhile_cons, hc, this.1, this.2]

theorem takeNonRB_split :
    ∀ (p q : List Char), (∀ c ∈ p, c ≠ ']') →
    takeNonRB (p ++ ']' :: q) = (p, ']' :: q) := by
  intro p
  induction p with
  | nil => intro q _; simp [takeNonRB]
  | cons c p' ih =>
    intro q hp
    have hc : c ≠ ']' := hp c (by simp)
    simp [takeNonRB, hc, ih q (fun x hx => hp x (by simp [hx]))]

/-- Lowering commutes with cutting at the first colon (the colon is not
an uppercase letter, so it is fixed by `asciiLower`). -/
theorem lower_takeWhile_colon : ∀ v : List Char,
    (v.takeWhile (fun c => c ≠ ':')).map asciiLower =
      (v.map asciiLower).takeWhile (fun c => c ≠ ':') := by
  intro v
  induction v with
  | nil => rfl
  | cons c cs ih =>
    by_cases hc : c = ':'
    · subst hc
      have hl : asciiLower ':' = ':' := by decide
      rw [List.takeWhile_cons,
        if_neg (by decide : ¬ (decide ((':' : Char) ≠ ':') = true)),
        List.map_cons, hl, List.takeWhile_cons,
        if_neg (by decide : ¬ (decide ((':' : Char) ≠ ':') = true))]
      rfl
    · have hlc : asciiLower c ≠ ':' :=
        fun he => hc (asciiLower_fix (by decide) he)
      rw [List.takeWhile_cons, if_pos (decide_eq_true hc), List.map_cons,
        List.map_cons, List.takeWhile_cons, if_pos (decide_eq_true hlc),
        ih]

theorem takeWhile_colon_http (t : List Char) :
    ("http://".data ++ t).takeWhile (fun c => c ≠ ':') = "http".data := by
  rw [show "http://".data ++ t =
    'h' :: 't' :: 't' :: 'p' :: ':' :: '/' :: '/' :: t from rfl]
  simp [List.takeWhile_cons]

theorem takeWhile_colon_https (t : List Char) :
    ("https://".data ++ t).takeWhile (fun c => c ≠ ':') = "https".data := by
  rw [show "https://".data ++ t =
    'h' :: 't' :: 't' :: 'p' :: 's' :: ':' :: '/' :: '/' :: t from rfl]
  simp [List.takeWhile_cons]

theorem takeWhile_colon_mailto (t : List Char) :
    ("mailto:".data ++ t).takeWhile (fun c => c ≠ ':') = "mailto".data := by
  rw [show "mailto:".data ++ t =
    'm' :: 'a' :: 'i' :: 'l' :: 't' :: 'o' :: ':' :: t from rfl]
  simp [List.takeWhile_cons]

theorem dropWhile_head (f : Char → Bool) :
    ∀ (l : List Char) (d : Char) (rest : List Char),
    l.dropWhile f = d :: rest → f d = false := by
  intro l
  induction l with
  | nil => intro d rest h; cases h
  | cons c cs ih =>
    intro d rest h
    rw [List.dropWhile_cons] at h
    by_cases hf : f c = true
    · rw [if_pos hf] at h
      exact ih d rest h
    · rw [if_neg hf] at h
      injection h with h1 h2
      have hfc : f c = false := by
        cases hfc : f c
        · rfl
        · exact absurd hfc hf
      rw [← h1]
      exact hfc

/-- The bare-relative whole-string test fails on any value containing a
colon: neither character class includes `:`. -/
theorem bareRelTest_colon {v : List Char} (hc : ':' ∈ v) :
    bareRelTest v = false := by
  by_contra h
  rw [Bool.not_eq_false] at h
  simp only [bareRelTest, Bool.and_eq_true, decide_eq_true_eq,
    List.all_eq_true] at h
  obtain ⟨⟨⟨h1, h2⟩, h3⟩, h4⟩ := h
  have hsplit : v.takeWhile (fun c => c ≠ '/') ++
      v.dropWhile (fun c => c ≠ '/') = v := by simp
  rw [← hsplit] at hc
  rcases List.mem_append.mp hc with hin | hin
  · have := h2 _ hin
    simp [isBare1, isAsciiAlpha] at this
  · cases hd : v.dropWhile (fun c => c ≠ '/') with
    | nil =>
      rw [hd] at hin
      cases hin
    | cons d rest =>
      rw [hd] at hin
      have hdeq : d = '/' := by
        have := dropWhile_head _ v d rest hd
        simpa using this
      rcases List.mem_cons.mp hin with h' | h'
      · rw [hdeq] at h'
        cases h'
      · have := h4 ':' (by rw [hd]; exact h')
        simp [isBare2, isBare1, isAsciiAlpha] at this

/-- A prefix whose head is a non-alphabetic, non-colon character below
code point 97 contradicts the all-alphabetic scheme hypothesis. -/
theorem headNotAlpha (v t : List Char) (d : Char)
    (hd : d.toNat < 97) (hna : isAsciiAlpha d = false) (hne : d ≠ ':')
    (ht : d :: t = v.map asciiLower)
    (halpha : ∀ c ∈ v.takeWhile (fun c => c ≠ ':'), isAsciiAlpha c = true) :
    False := by
  cases v with
  | nil => cases ht
  | cons c v' =>
    rw [List.map_cons] at ht
    injection ht with h1 h2
    have hc : c = d := asciiLower_fix hd h1.symm
    have hcc : c ≠ ':' := by rw [hc]; exact hne
    have hmem : c ∈ (c :: v').takeWhile (fun x => x ≠ ':') := by
      rw [List.takeWhile_cons, if_pos (decide_eq_true hcc)]
      exact List.mem_cons_self c _
    have := halpha c hmem
    rw [hc, hna] at this
    cases this

/-- `normalizeHref` rejects every value whose scheme (the part before
the first colon, all ASCII letters) is not http, https or mailto. -/
theorem normalizeHref_scheme (href : String)
    (hcolon : ':' ∈ jsTrim href.data)
    (halpha : ∀ c ∈ (jsTrim href.data).takeWhile (fun c => c ≠ ':'),
      isAsciiAlpha c = true)
    (hscheme : ((jsTrim href.data).takeWhile (fun c => c ≠ ':')).map
      asciiLower ∉ ["http".data, "https".data, "mailto".data]) :
    normalizeHref href = "" := by
  have hne : jsTrim href.data ≠ [] := by
    intro h
    rw [h] at hcolon
    cases hcolon
  have hbare : bareRelTest (jsTrim href.data) = false :=
    bareRelTest_colon hcolon
  have hallow : allowedPrefixL (jsTrim href.data) = false := by
    by_contra h
    rw [Bool.not_eq_false] at h
    simp only [allowedPrefixL, Bool.or_eq_true] at h
    rcases h with ((((((h1 | h1) | h1) | h1) | h1) | h1) | h1)
    · obtain ⟨t, ht⟩ := List.isPrefixOf_iff_prefix.mp h1
      apply hscheme
      have he : ((jsTrim href.data).takeWhile (fun c => c ≠ ':')).map
          asciiLower = "http".data := by
        rw [lower_takeWhile_colon, ← ht]
        exact takeWhile_colon_http t
      rw [he]
      simp
    · obtain ⟨t, ht⟩ := List.isPrefixOf_iff_prefix.mp h1
      apply hscheme
      have he : ((jsTrim href.data).takeWhile (fun c => c ≠ ':')).map
          asciiLower = "https".data := by
        rw [lower_takeWhile_colon, ← ht]
        exact takeWhile_colon_https t
      rw [he]
      simp
    · obtain ⟨t, ht⟩ := List.isPrefixOf_iff_prefix.mp h1
      apply hscheme
      have he : ((jsTrim href.data).takeWhile (fun c => c ≠ ':')).map
          asciiLower = "mailto".data := by
        rw [lower_takeWhile_colon, ← ht]
        exact takeWhile_colon_mailto t
      rw [he]
      simp
    · obtain ⟨t, ht⟩ := List.isPrefixOf_iff_prefix.mp h1
      exact headNotAlpha _ t '#' (by decide) (by decide) (by decide)
        (show '#' :: t = _ from ht) halpha
    · obtain ⟨t, ht⟩ := List.isPrefixOf_iff_prefix.mp h1
      exact headNotAlpha _ t '/' (by decide) (by decide) (by decide)
        (show '/' :: t = _ from ht) halpha
    · obtain ⟨t, ht⟩ := List.isPrefixOf_iff_prefix.mp h1
      exact headNotAlpha _ ('/' :: t) '.' (by decide) (by decide) (by decide)
        (show '.' :: '/' :: t = _ from ht) halpha
    · obtain ⟨t, ht⟩ := List.isPrefixOf_iff_prefix.mp h1
      exact headNotAlpha _ ('.' :: '/' :: t) '.' (by decide) (by decide)
        (by decide) (show '.' :: '.' :: '/' :: t = _ from ht) halpha
  rw [normalizeHref, if_neg hne, if_neg (by rw [hallow, hbare]; simp)]

/-- Characters that take part in no regex or escape of
`inlineMarkdownToHtml` and survive every pass untouched. -/
def c5SafeChar (c : Char) : Bool :=
  decide (c ≠ '[') && decide (c ≠ ']') && decide (c ≠ '(') &&
  decide (c ≠ ')') && decide (c ≠ '!') && decide (c ≠ '&') &&
  decide (c ≠ '<') && decide (c ≠ '>') && decide (c ≠ '"') &&
  decide (c ≠ Char.ofNat 39) && decide (c ≠ '*') && decide (c ≠ bq) &&
  !isJsWs c

theorem c5SafeChar_spec {c : Char} (h : c5SafeChar c = true) :
    c ≠ '[' ∧ c ≠ ']' ∧ c ≠ '(' ∧ c ≠ ')' ∧ c ≠ '!' ∧ c ≠ '&' ∧ c ≠ '<' ∧
    c ≠ '>' ∧ c ≠ '"' ∧ c ≠ Char.ofNat 39 ∧ c ≠ '*' ∧ c ≠ bq ∧
    isJsWs c = false := by
  simp only [c5SafeChar, Bool.and_eq_true, decide_eq_true_eq,
    Bool.not_eq_true'] at h
  obtain ⟨⟨⟨⟨⟨⟨⟨⟨⟨⟨⟨⟨h1, h2⟩, h3⟩, h4⟩, h5⟩, h6⟩, h7⟩, h8⟩, h9⟩, h10⟩,
    h11⟩, h12⟩, h13⟩ := h
  exact ⟨h1, h2, h3, h4, h5, h6, h7, h8, h9, h10, h11, h12, h13⟩

theorem c5Safe_esc {c : Char} (h : c5SafeChar c = true) :
    c ≠ '&' ∧ c ≠ '<' ∧ c ≠ '>' ∧ c ≠ '"' ∧ c ≠ Char.ofNat 39 := by
  have hs := c5SafeChar_spec h
  exact ⟨hs.2.2.2.2.2.1, hs.2.2.2.2.2.2.1, hs.2.2.2.2.2.2.2.1,
    hs.2.2.2.2.2.2.2.2.1, hs.2.2.2.2.2.2.2.2.2.1⟩

theorem c5Safe_href {c : Char} (h : c5SafeChar c = true) :
    isHrefChar c = true := by
  have hs := c5SafeChar_spec h
  simp [isHrefChar, hs.2.2.2.1, hs.2.2.2.2.2.2.2.2.2.2.2.2]

/-- `jsTrim` is the identity on whitespace-free text. -/
theorem jsTrim_id {l : List Char} (h : ∀ c ∈ l, isJsWs c = false) :
    jsTrim l = l := by
  have hds : ∀ m : List Char, (∀ c ∈ m, isJsWs c = false) →
      m.dropWhile isJsWs = m := by
    intro m hm
    cases m with
    | nil => rfl
    | cons c cs =>
      rw [List.dropWhile_cons, if_neg (by rw [hm c (by simp)]; simp)]
  rw [jsTrim, jsTrimStart, hds l h, jsTrimEnd,
    hds _ (fun c hc => h c (List.mem_reverse.mp hc)), List.reverse_reverse]

/-- An accepted href comes back exactly as its trimmed value. -/
theorem normalizeHref_ne {s : String} (h : normalizeHref s ≠ "") :
    normalizeHref s = ⟨jsTrim s.data⟩ := by
  rw [normalizeHref] at h ⊢
  split_ifs at h ⊢ with h1 h2
  · exact absurd rfl h
  · rfl
  · exact absurd rfl h

theorem matchLinkMd_exact (label href : List Char) (hlab : label ≠ [])
    (hlabr : ∀ c ∈ label, c ≠ ']') (hhref : href ≠ [])
    (hhrefc : ∀ c ∈ href, isHrefChar c = true) :
    matchLinkMd ('[' :: (label ++ ']' :: ('(' :: (href ++ [')'])))) =
      some (linkEmit label href, []) := by
  have ht := takeNonRB_split label ('(' :: (href ++ [')'])) hlabr
  have hsplit := takeWhile_split isHrefChar href ')' [] hhrefc (by decide)
  have h1 : (takeNonRB (label ++ ']' :: ('(' :: (href ++ [')'])))).1 =
      label := by
    rw [ht]
  have h2 : (takeNonRB (label ++ ']' :: ('(' :: (href ++ [')'])))).2 =
      ']' :: ('(' :: (href ++ [')'])) := by
    rw [ht]
  rw [matchLinkMd, h1, h2,
    show List.drop 2 (']' :: ('(' :: (href ++ [')']))) = href ++ [')']
      from rfl,
    hsplit.1, hsplit.2,
    if_pos ⟨rfl, hlab, by simp [List.isPrefixOf], hhref, rfl⟩]
  rfl

theorem matchImgMd_exact (alt href : List Char)
    (haltr : ∀ c ∈ alt, c ≠ ']') (hhref : href ≠ [])
    (hhrefc : ∀ c ∈ href, isHrefChar c = true) :
    matchImgMd ('!' :: '[' :: (alt ++ ']' :: ('(' :: (href ++ [')'])))) =
      some (imgEmit alt href, []) := by
  have ht := takeNonRB_split alt ('(' :: (href ++ [')'])) haltr
  have hsplit := takeWhile_split isHrefChar href ')' [] hhrefc (by decide)
  have h1 : (takeNonRB (alt ++ ']' :: ('(' :: (href ++ [')'])))).1 =
      alt := by
    rw [ht]
  have h2 : (takeNonRB (alt ++ ']' :: ('(' :: (href ++ [')'])))).2 =
      ']' :: ('(' :: (href ++ [')'])) := by
    rw [ht]
  rw [matchImgMd, h1, h2,
    show List.drop 2 (']' :: ('(' :: (href ++ [')']))) = href ++ [')']
      from rfl,
    hsplit.1, hsplit.2,
    if_pos ⟨rfl, rfl, by simp [List.isPrefixOf], hhref, rfl⟩]
  rfl

/-- A scan whose matcher consumes the whole input in one step returns
just the replacement. -/
theorem scanRep_exact (m : List Char → Option (List Char × List Char))
    (c : Char) (cs : List Char) (em : List Char)
    (hm : m (c :: cs) = some (em, [])) :
    scanRepFuel m (c :: cs).length (c :: cs) = em := by
  rw [show (c :: cs).length = cs.length + 1 from rfl]
  simp [scanRepFuel, hm, scanRepFuel_nil]

/-- A scan that skips one character and then consumes the rest in one
match. -/
theorem scanRep_skip (m : List Char → Option (List Char × List Char))
    (c d : Char) (ds : List Char) (em : List Char)
    (hm0 : m (c :: d :: ds) = none)
    (hm1 : m (d :: ds) = some (em, [])) :
    scanRepFuel m (c :: d :: ds).length (c :: d :: ds) = c :: em := by
  rw [show (c :: d :: ds).length = ds.length + 1 + 1 from rfl]
  simp [scanRepFuel, hm0, hm1, scanRepFuel_nil]

/-- Full evaluation of `inlineMarkdownToHtml` on a single markdown link
over pass-inert characters: the anchor is emitted exactly when
`normalizeHref` accepts the href, else the bare label remains. -/
theorem inlineLink_eval (label href : List Char) (hlab : label ≠ [])
    (hhref : href ≠ []) (hsl : ∀ c ∈ label, c5SafeChar c = true)
    (hsh : ∀ c ∈ href, c5SafeChar c = true) :
    inlineMarkdownToHtml ⟨'[' :: (label ++ ']' :: ('(' :: (href ++ [')'])))⟩ =
      if normalizeHref ⟨href⟩ = "" then (⟨label⟩ : String)
      else ⟨"<a href=\"".data ++ (normalizeHref ⟨href⟩).data ++
        "\" target=\"_blank\" rel=\"noopener noreferrer\">".data ++
        label ++ "</a>".data⟩ := by
  have hescL : ∀ c ∈ '[' :: (label ++ ']' :: ('(' :: (href ++ [')']))),
      c ≠ '&' ∧ c ≠ '<' ∧ c ≠ '>' ∧ c ≠ '"' ∧ c ≠ Char.ofNat 39 := by
    intro c hc
    simp only [List.mem_cons, List.mem_append, List.mem_singleton,
      List.mem_nil_iff, or_false] at hc
    rcases hc with rfl | hcl | rfl | rfl | hch | rfl
    · exact (by decide)
    · exact c5Safe_esc (hsl c hcl)
    · exact (by decide)
    · exact (by decide)
    · exact c5Safe_esc (hsh c hch)
    · exact (by decide)
  have hesc : escapeHtml ⟨'[' :: (label ++ ']' :: ('(' :: (href ++ [')'])))⟩ =
      ⟨'[' :: (label ++ ']' :: ('(' :: (href ++ [')'])))⟩ :=
    escapeHtml_id _ hescL
  have hnb : '!' ∉ '[' :: (label ++ ']' :: ('(' :: (href ++ [')']))) := by
    intro hm
    simp only [List.mem_cons, List.mem_append, List.mem_singleton,
      List.mem_nil_iff, or_false] at hm
    rcases hm with h | h | h | h | h | h
    · exact absurd h (by decide)
    · exact (c5SafeChar_spec (hsl _ h)).2.2.2.2.1 rfl
    · exact absurd h (by decide)
    · exact absurd h (by decide)
    · exact (c5SafeChar_spec (hsh _ h)).2.2.2.2.1 rfl
    · exact absurd h (by decide)
  have himg : imgPassMd ('[' :: (label ++ ']' :: ('(' :: (href ++ [')'])))) =
      '[' :: (label ++ ']' :: ('(' :: (href ++ [')']))) :=
    passId matchImgMd '!' rfl (fun s hs => matchImgMd_none hs) _ _ hnb
  have hlink : linkPassMd ('[' :: (label ++ ']' :: ('(' :: (href ++ [')'])))) =
      linkEmit label href :=
    scanRep_exact matchLinkMd '[' _ _ (matchLinkMd_exact label href hlab
      (fun c hc => (c5SafeChar_spec (hsl c hc)).2.1) hhref
      (fun c hc => c5Safe_href (hsh c hc)))
  rw [inlineMarkdownToHtml, hesc]
  show (⟨codePass (emPass (strongPass (linkPassMd (imgPassMd
    ('[' :: (label ++ ']' :: ('(' :: (href ++ [')']))))))))⟩ : String) = _
  rw [himg, hlink]
  by_cases hrej : normalizeHref ⟨href⟩ = ""
  · have hemit : linkEmit label href = label := by
      rw [linkEmit, if_pos hrej]
    have hstar : '*' ∉ label := fun hm =>
      (c5SafeChar_spec (hsl _ hm)).2.2.2.2.2.2.2.2.2.2.1 rfl
    have hbq : bq ∉ label := fun hm =>
      (c5SafeChar_spec (hsl _ hm)).2.2.2.2.2.2.2.2.2.2.2.1 rfl
    have hstrong : strongPass label = label :=
      passId matchStrong '*' rfl (fun s hs => matchStrong_none hs) _ _ hstar
    have hem2 : emPass label = label :=
      passId matchEm '*' rfl (fun s hs => matchEm_none hs) _ _ hstar
    have hcode2 : codePass label = label :=
      passId matchCode bq rfl (fun s hs => matchCode_none hs) _ _ hbq
    rw [hemit, hstrong, hem2, hcode2, if_pos hrej]
  · have htrim : jsTrim href = href := jsTrim_id (fun c hc =>
      (c5SafeChar_spec (hsh c hc)).2.2.2.2.2.2.2.2.2.2.2.2)
    have hdata : (normalizeHref ⟨href⟩).data = href := by
      rw [normalizeHref_ne hrej]
      exact htrim
    have hemit : linkEmit label href = "<a href=\"".data ++
        (normalizeHref ⟨href⟩).data ++
        "\" target=\"_blank\" rel=\"noopener noreferrer\">".data ++
        label ++ "</a>".data := by
      rw [linkEmit, if_neg hrej]
    have hstarE : '*' ∉ linkEmit label href := by
      rw [hemit, hdata]
      intro hm0
      rcases List.mem_append.mp hm0 with hm1 | h
      · rcases List.mem_append.mp hm1 with hm2 | h
        · rcases List.mem_append.mp hm2 with hm3 | h
          · rcases List.mem_append.mp hm3 with h | h
            · exact absurd h (by decide)
            · exact (c5SafeChar_spec (hsh _ h)).2.2.2.2.2.2.2.2.2.2.1 rfl
          · exact absurd h (by decide)
        · exact (c5SafeChar_spec (hsl _ h)).2.2.2.2.2.2.2.2.2.2.1 rfl
      · exact absurd h (by decide)
    have hbqE : bq ∉ linkEmit label href := by
      rw [hemit, hdata]
      intro hm0
      rcases List.mem_append.mp hm0 with hm1 | h
      · rcases List.mem_append.mp hm1 with hm2 | h
        · rcases List.mem_append.mp hm2 with hm3 | h
          · rcases List.mem_append.mp hm3 with h | h
            · exact absurd h (by decide)
            · exact (c5SafeChar_spec (hsh _ h)).2.2.2.2.2.2.2.2.2.2.2.1 rfl
          · exact absurd h (by decide)
        · exact (c5SafeChar_spec (hsl _ h)).2.2.2.2.2.2.2.2.2.2.2.1 rfl
      · exact absurd h (by decide)
    have hstrong : strongPass (linkEmit label href) = linkEmit label href :=
      passId matchStrong '*' rfl (fun s hs => matchStrong_none hs) _ _ hstarE
    have hem2 : emPass (linkEmit label href) = linkEmit label href :=
      passId matchEm '*' rfl (fun s hs => matchEm_none hs) _ _ hstarE
    have hcode2 : codePass (linkEmit label href) = linkEmit label href :=
      passId matchCode bq rfl (fun s hs => matchCode_none hs) _ _ hbqE
    rw [hstrong, hem2, hcode2, if_neg hrej, hemit]

/-- Full evaluation of `inlineMarkdownToHtml` on a single markdown image
over pass-inert characters: the img tag is emitted exactly when
`normalizeHref` accepts the href; a rejected href leaves the image text
to the link pass, which strips the syntax down to `!` and the alt. -/
theorem inlineImg_eval (alt href : List Char) (halt : alt ≠ [])
    (hhref : href ≠ []) (hsl : ∀ c ∈ alt, c5SafeChar c = true)
    (hsh : ∀ c ∈ href, c5SafeChar c = true) :
    inlineMarkdownToHtml
        ⟨'!' :: '[' :: (alt ++ ']' :: ('(' :: (href ++ [')'])))⟩ =
      if normalizeHref ⟨href⟩ = "" then (⟨'!' :: alt⟩ : String)
      else ⟨"<img src=\"".data ++ (normalizeHref ⟨href⟩).data ++
        "\" alt=\"".data ++ alt ++ "\" loading=\"lazy\">".data⟩ := by
  have hescL : ∀ c ∈ '!' :: '[' :: (alt ++ ']' :: ('(' :: (href ++ [')']))),
      c ≠ '&' ∧ c ≠ '<' ∧ c ≠ '>' ∧ c ≠ '"' ∧ c ≠ Char.ofNat 39 := by
    intro c hc
    simp only [List.mem_cons, List.mem_append, List.mem_singleton,
      List.mem_nil_iff, or_false] at hc
    rcases hc with rfl | rfl | hcl | rfl | rfl | hch | rfl
    · exact (by decide)
    · exact (by decide)
    · exact c5Safe_esc (hsl c hcl)
    · exact (by decide)
    · exact (by decide)
    · exact c5Safe_esc (hsh c hch)
    · exact (by decide)
  have hesc : escapeHtml
      ⟨'!' :: '[' :: (alt ++ ']' :: ('(' :: (href ++ [')'])))⟩ =
      ⟨'!' :: '[' :: (alt ++ ']' :: ('(' :: (href ++ [')'])))⟩ :=
    escapeHtml_id _ hescL
  have haltr : ∀ c ∈ alt, c ≠ ']' :=
    fun c hc => (c5SafeChar_spec (hsl c hc)).2.1
  have hhrefc : ∀ c ∈ href, isHrefChar c = true :=
    fun c hc => c5Safe_href (hsh c hc)
  have himg : imgPassMd ('!' :: '[' :: (alt ++ ']' :: ('(' :: (href ++ [')'])))) =
      imgEmit alt href :=
    scanRep_exact matchImgMd '!' _ _ (matchImgMd_exact alt href haltr hhref hhrefc)
  rw [inlineMarkdownToHtml, hesc]
  show (⟨codePass (emPass (strongPass (linkPassMd (imgPassMd
    ('!' :: '[' :: (alt ++ ']' :: ('(' :: (href ++ [')']))))))))⟩ : String) = _
  rw [himg]
  by_cases hrej : normalizeHref ⟨href⟩ = ""
  · have hemitI : imgEmit alt href =
        '!' :: '[' :: (alt ++ ']' :: ('(' :: (href ++ [')']))) := by
      rw [imgEmit, if_pos hrej]
    have hlemit : linkEmit alt href = alt := by
      rw [linkEmit, if_pos hrej]
    have hlink2 : linkPassMd ('!' :: '[' :: (alt ++ ']' :: ('(' :: (href ++ [')'])))) =
        '!' :: linkEmit alt href :=
      scanRep_skip matchLinkMd '!' '[' _ _
        (matchLinkMd_none (by simp))
        (matchLinkMd_exact alt href halt haltr hhref hhrefc)
    have hstar : '*' ∉ '!' :: alt := by
      intro hm
      rcases List.mem_cons.mp hm with h | h
      · exact absurd h (by decide)
      · exact (c5SafeChar_spec (hsl _ h)).2.2.2.2.2.2.2.2.2.2.1 rfl
    have hbq : bq ∉ '!' :: alt := by
      intro hm
      rcases List.mem_cons.mp hm with h | h
      · exact absurd h (by decide)
      · exact (c5SafeChar_spec (hsl _ h)).2.2.2.2.2.2.2.2.2.2.2.1 rfl
    have hstrong : strongPass ('!' :: alt) = '!' :: alt :=
      passId matchStrong '*' rfl (fun s hs => matchStrong_none hs) _ _ hstar
    have hem2 : emPass ('!' :: alt) = '!' :: alt :=
      passId matchEm '*' rfl (fun s hs => matchEm_none hs) _ _ hstar
    have hcode2 : codePass ('!' :: alt) = '!' :: alt :=
      passId matchCode bq rfl (fun s hs => matchCode_none hs) _ _ hbq
    rw [hemitI, hlink2, hlemit, hstrong, hem2, hcode2, if_pos hrej]
  · have htrim : jsTrim href = href := jsTrim_id (fun c hc =>
      (c5SafeChar_spec (hsh c hc)).2.2.2.2.2.2.2.2.2.2.2.2)
    have hdata : (normalizeHref ⟨href⟩).data = href := by
      rw [normalizeHref_ne hrej]
      exact htrim
    have hemitI : imgEmit alt href = "<img src=\"".data ++
        (normalizeHref ⟨href⟩).data ++ "\" alt=\"".data ++ alt ++
        "\" loading=\"lazy\">".data := by
      rw [imgEmit, if_neg hrej]
    have hlb : '[' ∉ imgEmit alt href := by
      rw [hemitI, hdata]
      intro hm0
      rcases List.mem_append.mp hm0 with hm1 | h
      · rcases List.mem_append.mp hm1 with hm2 | h
        · rcases List.mem_append.mp hm2 with hm3 | h
          · rcases List.mem_append.mp hm3 with h | h
            · exact absurd h (by decide)
            · exact (c5SafeChar_spec (hsh _ h)).1 rfl
          · exact absurd h (by decide)
        · exact (c5SafeChar_spec (hsl _ h)).1 rfl
      · exact absurd h (by decide)
    have hstarE : '*' ∉ imgEmit alt href := by
      rw [hemitI, hdata]
      intro hm0
      rcases List.mem_append.mp hm0 with hm1 | h
      · rcases List.mem_append.mp hm1 with hm2 | h
        · rcases List.mem_append.mp hm2 with hm3 | h
          · rcases List.mem_append.mp hm3 with h | h
            · exact absurd h (by decide)
            · exact (c5SafeChar_spec (hsh _ h)).2.2.2.2.2.2.2.2.2.2.1 rfl
          · exact absurd h (by decide)
        · exact (c5SafeChar_spec (hsl _ h)).2.2.2.2.2.2.2.2.2.2.1 rfl
      · exact absurd h (by decide)
    have hbqE : bq ∉ imgEmit alt href := by
      rw [hemitI, hdata]
      intro hm0
      rcases List.mem_append.mp hm0 with hm1 | h
      · rcases List.mem_append.mp hm1 with hm2 | h
        · rcases List.mem_append.mp hm2 with hm3 | h
          · rcases List.mem_append.mp hm3 with h | h
            · exact absurd h (by decide)
            · exact (c5SafeChar_spec (hsh _ h)).2.2.2.2.2.2.2.2.2.2.2.1 rfl
          · exact absurd h (by decide)
        · exact (c5SafeChar_spec (hsl _ h)).2.2.2.2.2.2.2.2.2.2.2.1 rfl
      · exact absurd h (by decide)
    have hlink2 : linkPassMd (imgEmit alt href) = imgEmit alt href :=
      passId matchLinkMd '[' rfl (fun s hs => matchLinkMd_none hs) _ _ hlb
    have hstrong : strongPass (imgEmit alt href) = imgEmit alt href :=
      passId matchStrong '*' rfl (fun s hs => matchStrong_none hs) _ _ hstarE
    have hem2 : emPass (imgEmit alt href) = imgEmit alt href :=
      passId matchEm '*' rfl (fun s hs => matchEm_none hs) _ _ hstarE
    have hcode2 : codePass (imgEmit alt href) = imgEmit alt href :=
      passId matchCode bq rfl (fun s hs => matchCode_none hs) _ _ hbqE
    rw [hlink2, hstrong, hem2, hcode2, if_neg hrej, hemitI]

/-- C5: href/src values rendered by `inlineMarkdownToHtml` pass through
the `normalizeHref` allow-list.  (i) Any value whose scheme — the
all-letter segment before the first colon of the trimmed value — is not
http, https or mailto is normalized to the empty string (so
`javascript:` and every other scheme is rejected).  (ii) For a single
markdown link or image over pass-inert characters, the `<a href>` /
`<img src>` tag is emitted exactly when `normalizeHref` accepts the
value; otherwise the link collapses to its bare label and no tag with
that value appears. -/
theorem c5_href_allowlist :
    (∀ href : String, ':' ∈ jsTrim href.data →
      (∀ c ∈ (jsTrim href.data).takeWhile (fun c => c ≠ ':'),
        isAsciiAlpha c = true) →
      ((jsTrim href.data).takeWhile (fun c => c ≠ ':')).map asciiLower ∉
        ["http".data, "https".data, "mailto".data] →
      normalizeHref href = "") ∧
    (∀ label href : List Char, label ≠ [] → href ≠ [] →
      (∀ c ∈ label, c5SafeChar c = true) →
      (∀ c ∈ href, c5SafeChar c = true) →
      (inlineMarkdownToHtml
          ⟨'[' :: (label ++ ']' :: ('(' :: (href ++ [')'])))⟩ =
        if normalizeHref ⟨href⟩ = "" then (⟨label⟩ : String)
        else ⟨"<a href=\"".data ++ (normalizeHref ⟨href⟩).data ++
          "\" target=\"_blank\" rel=\"noopener noreferrer\">".data ++
          label ++ "</a>".data⟩) ∧
      (inlineMarkdownToHtml
          ⟨'!' :: '[' :: (label ++ ']' :: ('(' :: (href ++ [')'])))⟩ =
        if normalizeHref ⟨href⟩ = "" then (⟨'!' :: label⟩ : String)
        else ⟨"<img src=\"".data ++ (normalizeHref ⟨href⟩).data ++
          "\" alt=\"".data ++ label ++ "\" loading=\"lazy\">".data⟩)) :=
  ⟨fun href h1 h2 h3 => normalizeHref_scheme href h1 h2 h3,
   fun label href h1 h2 h3 h4 =>
     ⟨inlineLink_eval label href h1 h2 h3 h4,
      inlineImg_eval label href h1 h2 h3 h4⟩⟩

/-- Witness for `c5_href_allowlist`: a `javascript:` href is normalized
away, and the rendered link for it is the bare label with no anchor. -/
theorem c5_href_allowlist_witness :
    normalizeHref "javascript:alert" = "" ∧
    inlineMarkdownToHtml
        ⟨'[' :: ("x".data ++ ']' ::
          ('(' :: ("javascript:alert".data ++ [')'])))⟩ = "x" := by
  constructor
  · exact c5_href_allowlist.1 "javascript:alert" (by decide) (by decide)
      (by decide)
  · have h := (c5_href_allowlist.2 "x".data "javascript:alert".data
      (by decide) (by decide) (by decide) (by decide)).1
    rw [h,
      if_pos (by decide : normalizeHref ⟨"javascript:alert".data⟩ = "")]

end SlackExport
